import Mathlib

/-!
Verification of the DiffPilot core: a shallow embedding of the diff engine
(`computeDiff` in the webview module), the review-comment repository
(`reviewRepository.ts`), branch-name validation (`validation.ts`), the
markdown report generator (`reviewService.ts`), and the JSON persistence
round trip, together with theorems settling the specification claims.
-/

namespace DiffPilot

/-! ## Diff engine data model (webview module, `DiffLine`) -/

inductive DiffType where
  | unchanged
  | added
  | removed
deriving DecidableEq, Repr

/-- `DiffLine` from the webview module: a classified line with optional
line-number anchors (JS optional fields become `Option Nat`). -/
structure DiffLine where
  type : DiffType
  content : String
  oldLineNumber : Option Nat
  newLineNumber : Option Nat
deriving DecidableEq, Repr

/-- JS truthiness of a `string | null` value: `null` and `""` are falsy. -/
def truthy : Option String → Bool
  | none => false
  | some s => s != ""

/-- `lines.map((line, index) => ({type:'added', content:line, newLineNumber:index+1}))`,
with the running 1-based position threaded through as `i + 1`. -/
def addedFrom (i : Nat) : List String → List DiffLine
  | [] => []
  | l :: ls => ⟨.added, l, none, some (i + 1)⟩ :: addedFrom (i + 1) ls

/-- `lines.map((line, index) => ({type:'removed', content:line, oldLineNumber:index+1}))`. -/
def removedFrom (i : Nat) : List String → List DiffLine
  | [] => []
  | l :: ls => ⟨.removed, l, some (i + 1), none⟩ :: removedFrom (i + 1) ls

/-- The main `while` loop of `computeDiff`, fuel-indexed: the source counts
`iterations` and breaks out (returning the partial diff) once
`iterations > maxIterations`; here `fuel` is the number of iterations still
allowed, and the `Bool` component records whether the defensive break fired.
`ol[oi]?`/`ml[ni]?` model `originalLines[oldIndex]`/`modifiedLines[newIndex]`
(which are `null` = `none` out of bounds), `List.contains` models the
`Set.has` lookups on the full line arrays, and `truthy` models the JS
truthiness tests `oldLine &&  ...` / `if (oldLine)`. -/
def diffLoop (ol ml : List String) (fuel oi ni : Nat) : List DiffLine × Bool :=
  if oi < ol.length ∨ ni < ml.length then
    match fuel with
    | 0 => ([], true)
    | fuel + 1 =>
      let oldLine := ol[oi]?
      let newLine := ml[ni]?
      if oldLine = newLine then
        match diffLoop ol ml fuel (oi + 1) (ni + 1) with
        | (rest, ab) => (⟨.unchanged, oldLine.getD "", some (oi + 1), some (ni + 1)⟩ :: rest, ab)
      else if truthy oldLine && !(ml.contains (oldLine.getD "")) then
        match diffLoop ol ml fuel (oi + 1) ni with
        | (rest, ab) => (⟨.removed, oldLine.getD "", some (oi + 1), none⟩ :: rest, ab)
      else if truthy newLine && !(ol.contains (newLine.getD "")) then
        match diffLoop ol ml fuel oi (ni + 1) with
        | (rest, ab) => (⟨.added, newLine.getD "", none, some (ni + 1)⟩ :: rest, ab)
      else
        -- replacement pair: `if (oldLine) {push removed; oldIndex++}` then
        -- `if (newLine) {push added; newIndex++}` (two independent JS ifs,
        -- laid out as the four truthiness combinations)
        if truthy oldLine then
          if truthy newLine then
            match diffLoop ol ml fuel (oi + 1) (ni + 1) with
            | (rest, ab) =>
              (⟨.removed, oldLine.getD "", some (oi + 1), none⟩ ::
               ⟨.added, newLine.getD "", none, some (ni + 1)⟩ :: rest, ab)
          else
            match diffLoop ol ml fuel (oi + 1) ni with
            | (rest, ab) => (⟨.removed, oldLine.getD "", some (oi + 1), none⟩ :: rest, ab)
        else
          if truthy newLine then
            match diffLoop ol ml fuel oi (ni + 1) with
            | (rest, ab) => (⟨.added, newLine.getD "", none, some (ni + 1)⟩ :: rest, ab)
          else diffLoop ol ml fuel oi ni
  else ([], false)

/-- Helper for `splitLines`: splits a character list at every `'\n'`.
`[]` yields `[[]]` (JS `"".split('\n') == [""]`), and a separator always
starts a fresh segment, so a trailing newline yields a trailing empty line. -/
def splitLinesAux : List Char → List (List Char)
  | [] => [[]]
  | c :: rest =>
    if c = '\n' then [] :: splitLinesAux rest
    else
      match splitLinesAux rest with
      | [] => [[c]]
      | l :: ls => (c :: l) :: ls

/-- Splitting a text into lines: `text.split('\n')` (split on every
occurrence of the single-character separator, no limit). -/
def splitLines (s : String) : List String :=
  (splitLinesAux s.data).map (fun l => ⟨l⟩)

/-- `computeDiff` together with the abort flag of its defensive iteration cap.
Edge cases as in the source: `!original && !modified` (both empty strings),
then the all-added and all-removed cases, then the cursor loop with
`maxIterations = originalLines.length + modifiedLines.length + 100`. -/
def computeDiffAux (original modified : String) : List DiffLine × Bool :=
  if original = "" ∧ modified = "" then ([], false)
  else if original = "" then (addedFrom 0 (splitLines modified), false)
  else if modified = "" then (removedFrom 0 (splitLines original), false)
  else
    let originalLines := splitLines original
    let modifiedLines := splitLines modified
    diffLoop originalLines modifiedLines
      (originalLines.length + modifiedLines.length + 100) 0 0

/-- `computeDiff(original, modified)` of the webview module. -/
def computeDiff (original modified : String) : List DiffLine :=
  (computeDiffAux original modified).1

/-- Whether the defensive iteration cap of `computeDiff` fired
(the `iterations > maxIterations` break that logs
"Diff computation exceeded max iterations"). -/
def diffAborted (original modified : String) : Bool :=
  (computeDiffAux original modified).2

/-- Reference loop following the spec text of the four cursor rules
(§4.1 of the spec), used to compare `computeDiff` against the claim:
until both cursors reach their array ends,
(1) equal lines at both cursors emit `unchanged` and advance both;
(2) an old line with no equal-content line anywhere in `modified` emits
`removed` and advances only the old cursor;
(3) a new line with no equal-content line anywhere in `original` emits
`added` and advances only the new cursor;
(4) otherwise a `removed` then an `added` are emitted as a replacement pair
and both cursors advance (when only one cursor is still in range, only its
line exists, so only its entry is emitted and only it advances). -/
def specLoop (ol ml : List String) (oi ni : Nat) : List DiffLine :=
  if ho : oi < ol.length then
    if hn : ni < ml.length then
      if ol[oi] = ml[ni] then
        ⟨.unchanged, ol[oi], some (oi + 1), some (ni + 1)⟩ :: specLoop ol ml (oi + 1) (ni + 1)
      else if ¬ ml.contains ol[oi] then
        ⟨.removed, ol[oi], some (oi + 1), none⟩ :: specLoop ol ml (oi + 1) ni
      else if ¬ ol.contains ml[ni] then
        ⟨.added, ml[ni], none, some (ni + 1)⟩ :: specLoop ol ml oi (ni + 1)
      else
        ⟨.removed, ol[oi], some (oi + 1), none⟩ ::
        ⟨.added, ml[ni], none, some (ni + 1)⟩ :: specLoop ol ml (oi + 1) (ni + 1)
    else
      ⟨.removed, ol[oi], some (oi + 1), none⟩ :: specLoop ol ml (oi + 1) ni
  else if hn : ni < ml.length then
    ⟨.added, ml[ni], none, some (ni + 1)⟩ :: specLoop ol ml oi (ni + 1)
  else []
termination_by ol.length - oi + (ml.length - ni)
decreasing_by all_goals omega

/-- The diff demanded by the spec's wording: same degenerate cases as
`computeDiff`, then the four cursor rules via `specLoop`. -/
def specDiff (original modified : String) : List DiffLine :=
  if original = "" ∧ modified = "" then []
  else if original = "" then addedFrom 0 (splitLines modified)
  else if modified = "" then removedFrom 0 (splitLines original)
  else specLoop (splitLines original) (splitLines modified) 0 0

/-- The subsequence of a diff that references the original text:
everything except `added` lines, keyed by `oldLineNumber` (missing anchors
show up as `0`, which never occurs among correct 1-based anchors). -/
def oldView (ds : List DiffLine) : List (Nat × String) :=
  (ds.filter (fun d => d.type ≠ DiffType.added)).map
    (fun d => (d.oldLineNumber.getD 0, d.content))

/-- The subsequence of a diff that references the modified text:
everything except `removed` lines, keyed by `newLineNumber`. -/
def newView (ds : List DiffLine) : List (Nat × String) :=
  (ds.filter (fun d => d.type ≠ DiffType.removed)).map
    (fun d => (d.newLineNumber.getD 0, d.content))

/-- The lines of a list numbered consecutively starting at `i + 1`. -/
def numbered (i : Nat) : List String → List (Nat × String)
  | [] => []
  | l :: ls => (i + 1, l) :: numbered (i + 1) ls

/-- C5's invariant at a pair of texts: the non-`added` part of the diff
enumerates the original's lines as `1, …, len(original)` in order, and the
non-`removed` part enumerates the modified's lines as `1, …, len(modified)`. -/
def partitionsDiff (original modified : String) : Prop :=
  oldView (computeDiff original modified) = numbered 0 (splitLines original) ∧
  newView (computeDiff original modified) = numbered 0 (splitLines modified)

instance (original modified : String) : Decidable (partitionsDiff original modified) := by
  unfold partitionsDiff; infer_instance

/-- All lines unchanged, numbered `i+1, i+2, …` on both sides. -/
def unchangedFrom (i : Nat) : List String → List DiffLine
  | [] => []
  | l :: ls => ⟨.unchanged, l, some (i + 1), some (i + 1)⟩ :: unchangedFrom (i + 1) ls

/-! ## Diff engine lemmas -/

lemma splitLines_empty : splitLines "" = [""] := rfl

lemma splitLinesAux_ne_nil (l : List Char) : splitLinesAux l ≠ [] := by
  induction l with
  | nil => simp [splitLinesAux]
  | cons c rest ih =>
    rw [splitLinesAux.eq_def]
    by_cases hc : c = '\n'
    · simp [hc]
    · simp only [hc, if_false]
      cases hrec : splitLinesAux rest <;> simp

lemma splitLines_ne_nil (s : String) : splitLines s ≠ [] := by
  unfold splitLines
  cases h : splitLinesAux s.data with
  | nil => exact absurd h (splitLinesAux_ne_nil s.data)
  | cons l ls => simp

/-- On equal inputs the cursor loop always takes the `unchanged` branch and
numbers both sides identically. -/
lemma diffLoop_self (l : List String) :
    ∀ fuel i, l.length - i ≤ fuel →
      diffLoop l l fuel i i = (unchangedFrom i (l.drop i), false) := by
  intro fuel
  induction fuel with
  | zero =>
    intro i hle
    rw [diffLoop]
    have : ¬ (i < l.length ∨ i < l.length) := by omega
    rw [if_neg this, List.drop_eq_nil_of_le (by omega), unchangedFrom]
  | succ fuel ih =>
    intro i hle
    rw [diffLoop]
    by_cases hi : i < l.length
    · rw [if_pos (Or.inl hi)]
      rw [List.getElem?_eq_getElem hi]
      rw [if_pos rfl]
      rw [ih (i + 1) (by omega)]
      rw [List.drop_eq_getElem_cons hi, unchangedFrom]
      simp
    · have : ¬ (i < l.length ∨ i < l.length) := by omega
      rw [if_neg this, List.drop_eq_nil_of_le (by omega), unchangedFrom]

lemma length_unchangedFrom (ls : List String) : ∀ i, (unchangedFrom i ls).length = ls.length := by
  induction ls with
  | nil => intro i; rfl
  | cons l rest ih => intro i; simp [unchangedFrom, ih]

lemma get_unchangedFrom (ls : List String) :
    ∀ i k (hk : k < (unchangedFrom i ls).length),
      ∃ hk2 : k < ls.length,
        (unchangedFrom i ls).get ⟨k, hk⟩ =
          ⟨.unchanged, ls.get ⟨k, hk2⟩, some (i + k + 1), some (i + k + 1)⟩ := by
  induction ls with
  | nil => intro i k hk; simp [unchangedFrom] at hk
  | cons l rest ih =>
    intro i k hk
    cases k with
    | zero => exact ⟨by simp, rfl⟩
    | succ k =>
      have hk' : k < (unchangedFrom (i + 1) rest).length := by
        simpa [unchangedFrom] using hk
      obtain ⟨hk2, heq⟩ := ih (i + 1) k hk'
      refine ⟨by simpa using Nat.succ_lt_succ hk2, ?_⟩
      simpa [unchangedFrom, Nat.add_assoc, Nat.add_comm, Nat.add_left_comm] using heq

/-- When every line of both inputs is non-empty, the JS truthiness tests in
the loop agree with "the line exists", and the code's loop computes exactly
the spec's four cursor rules, never hitting the defensive cap. -/
lemma diffLoop_eq_specLoop (ol ml : List String)
    (hol : ∀ l ∈ ol, l ≠ "") (hml : ∀ l ∈ ml, l ≠ "") :
    ∀ fuel oi ni, ol.length - oi + (ml.length - ni) ≤ fuel →
      diffLoop ol ml fuel oi ni = (specLoop ol ml oi ni, false) := by
  intro fuel
  induction fuel with
  | zero =>
    intro oi ni hle
    have hno : ¬ (oi < ol.length ∨ ni < ml.length) := by omega
    rw [diffLoop, if_neg hno, specLoop, dif_neg (by omega), dif_neg (by omega)]
  | succ fuel ih =>
    intro oi ni hle
    by_cases ho : oi < ol.length <;> by_cases hn : ni < ml.length
    · -- both cursors in range
      have htro : truthy (some ol[oi]) = true := by
        simp [truthy, hol _ (List.getElem_mem ho)]
      have htrn : truthy (some ml[ni]) = true := by
        simp [truthy, hml _ (List.getElem_mem hn)]
      by_cases h1 : ol[oi] = ml[ni]
      · have hs : specLoop ol ml oi ni =
            ⟨.unchanged, ol[oi], some (oi + 1), some (ni + 1)⟩ ::
              specLoop ol ml (oi + 1) (ni + 1) := by
          rw [specLoop, dif_pos ho, dif_pos hn, if_pos h1]
        rw [hs, diffLoop, if_pos (Or.inl ho),
          List.getElem?_eq_getElem ho, List.getElem?_eq_getElem hn,
          if_pos (show some ol[oi] = some ml[ni] by rw [h1]),
          ih (oi + 1) (ni + 1) (by omega)]
        simp
      · cases hc2 : ml.contains ol[oi] with
        | false =>
          have hm2 : ol[oi] ∉ ml := by simpa using hc2
          have hs : specLoop ol ml oi ni =
              ⟨.removed, ol[oi], some (oi + 1), none⟩ :: specLoop ol ml (oi + 1) ni := by
            rw [specLoop, dif_pos ho, dif_pos hn, if_neg h1, if_pos (by simp [hm2])]
          rw [hs, diffLoop, if_pos (Or.inl ho),
            List.getElem?_eq_getElem ho, List.getElem?_eq_getElem hn,
            if_neg (by simpa using h1),
            if_pos (by simp [htro, hm2]),
            ih (oi + 1) ni (by omega)]
          simp
        | true =>
          have hm2 : ol[oi] ∈ ml := by simpa using hc2
          cases hc3 : ol.contains ml[ni] with
          | false =>
            have hm3 : ml[ni] ∉ ol := by simpa using hc3
            have hs : specLoop ol ml oi ni =
                ⟨.added, ml[ni], none, some (ni + 1)⟩ :: specLoop ol ml oi (ni + 1) := by
              rw [specLoop, dif_pos ho, dif_pos hn, if_neg h1,
                if_neg (by simp [hm2]), if_pos (by simp [hm3])]
            rw [hs, diffLoop, if_pos (Or.inl ho),
              List.getElem?_eq_getElem ho, List.getElem?_eq_getElem hn,
              if_neg (by simpa using h1),
              if_neg (by simp [hm2]),
              if_pos (by simp [htrn, hm3]),
              ih oi (ni + 1) (by omega)]
            simp
          | true =>
            have hm3 : ml[ni] ∈ ol := by simpa using hc3
            have hs : specLoop ol ml oi ni =
                ⟨.removed, ol[oi], some (oi + 1), none⟩ ::
                ⟨.added, ml[ni], none, some (ni + 1)⟩ :: specLoop ol ml (oi + 1) (ni + 1) := by
              rw [specLoop, dif_pos ho, dif_pos hn, if_neg h1,
                if_neg (by simp [hm2]), if_neg (by simp [hm3])]
            rw [hs, diffLoop, if_pos (Or.inl ho),
              List.getElem?_eq_getElem ho, List.getElem?_eq_getElem hn,
              if_neg (by simpa using h1),
              if_neg (by simp [hm2]),
              if_neg (by simp [hm3]),
              if_pos htro, if_pos htrn,
              ih (oi + 1) (ni + 1) (by omega)]
            simp
    · -- old cursor in range, new cursor exhausted
      have htro : truthy (some ol[oi]) = true := by
        simp [truthy, hol _ (List.getElem_mem ho)]
      have hs : specLoop ol ml oi ni =
          ⟨.removed, ol[oi], some (oi + 1), none⟩ :: specLoop ol ml (oi + 1) ni := by
        rw [specLoop, dif_pos ho, dif_neg hn]
      rw [hs, diffLoop, if_pos (Or.inl ho),
        List.getElem?_eq_getElem ho, List.getElem?_eq_none (by omega),
        if_neg (by simp)]
      cases hc2 : ml.contains ol[oi] with
      | false =>
        have hm2 : ol[oi] ∉ ml := by simpa using hc2
        rw [if_pos (by simp [htro, hm2]), ih (oi + 1) ni (by omega)]
        simp
      | true =>
        have hm2 : ol[oi] ∈ ml := by simpa using hc2
        rw [if_neg (by simp [hm2]), if_neg (by simp [truthy]),
          if_pos htro, if_neg (by simp [truthy]),
          ih (oi + 1) ni (by omega)]
        simp
    · -- old cursor exhausted, new cursor in range
      have htrn : truthy (some ml[ni]) = true := by
        simp [truthy, hml _ (List.getElem_mem hn)]
      have hs : specLoop ol ml oi ni =
          ⟨.added, ml[ni], none, some (ni + 1)⟩ :: specLoop ol ml oi (ni + 1) := by
        rw [specLoop, dif_neg ho, dif_pos hn]
      rw [hs, diffLoop, if_pos (Or.inr hn),
        List.getElem?_eq_none (by omega), List.getElem?_eq_getElem hn,
        if_neg (by simp), if_neg (by simp [truthy])]
      cases hc3 : ol.contains ml[ni] with
      | false =>
        have hm3 : ml[ni] ∉ ol := by simpa using hc3
        rw [if_pos (by simp [htrn, hm3]), ih oi (ni + 1) (by omega)]
        simp
      | true =>
        have hm3 : ml[ni] ∈ ol := by simpa using hc3
        rw [if_neg (by simp [hm3]), if_neg (by simp [truthy]),
          if_pos htrn, ih oi (ni + 1) (by omega)]
        simp
    · -- both cursors exhausted
      have hno : ¬ (oi < ol.length ∨ ni < ml.length) := by omega
      rw [diffLoop, if_neg hno, specLoop, dif_neg ho, dif_neg hn]

lemma oldView_nil : oldView [] = [] := rfl

lemma newView_nil : newView [] = [] := rfl

lemma oldView_cons_u (c : String) (o n : Option Nat) (ds : List DiffLine) :
    oldView (⟨.unchanged, c, o, n⟩ :: ds) = (o.getD 0, c) :: oldView ds := by
  simp [oldView]

lemma oldView_cons_r (c : String) (o n : Option Nat) (ds : List DiffLine) :
    oldView (⟨.removed, c, o, n⟩ :: ds) = (o.getD 0, c) :: oldView ds := by
  simp [oldView]

lemma oldView_cons_a (c : String) (o n : Option Nat) (ds : List DiffLine) :
    oldView (⟨.added, c, o, n⟩ :: ds) = oldView ds := by
  simp [oldView]

lemma newView_cons_u (c : String) (o n : Option Nat) (ds : List DiffLine) :
    newView (⟨.unchanged, c, o, n⟩ :: ds) = (n.getD 0, c) :: newView ds := by
  simp [newView]

lemma newView_cons_a (c : String) (o n : Option Nat) (ds : List DiffLine) :
    newView (⟨.added, c, o, n⟩ :: ds) = (n.getD 0, c) :: newView ds := by
  simp [newView]

lemma newView_cons_r (c : String) (o n : Option Nat) (ds : List DiffLine) :
    newView (⟨.removed, c, o, n⟩ :: ds) = newView ds := by
  simp [newView]

/-- The spec's cursor rules partition both inputs: the non-`added` entries
enumerate the original's remaining lines in order with their 1-based numbers,
and the non-`removed` entries enumerate the modified's remaining lines. -/
lemma specLoop_views (ol ml : List String) :
    ∀ fuel oi ni, ol.length - oi + (ml.length - ni) ≤ fuel →
      oldView (specLoop ol ml oi ni) = numbered oi (ol.drop oi) ∧
      newView (specLoop ol ml oi ni) = numbered ni (ml.drop ni) := by
  intro fuel
  induction fuel with
  | zero =>
    intro oi ni hle
    rw [specLoop, dif_neg (by omega)]
    rw [dif_neg (by omega)]
    rw [List.drop_eq_nil_of_le (by omega), List.drop_eq_nil_of_le (by omega)]
    exact ⟨rfl, rfl⟩
  | succ fuel ih =>
    intro oi ni hle
    by_cases ho : oi < ol.length <;> by_cases hn : ni < ml.length
    · rw [specLoop, dif_pos ho, dif_pos hn]
      by_cases h1 : ol[oi] = ml[ni]
      · rw [if_pos h1]
        obtain ⟨ho1, hn1⟩ := ih (oi + 1) (ni + 1) (by omega)
        constructor
        · rw [oldView_cons_u, ho1, List.drop_eq_getElem_cons ho, numbered]
          simp
        · rw [newView_cons_u, hn1, List.drop_eq_getElem_cons hn, numbered]
          simp [h1]
      · rw [if_neg h1]
        by_cases hc2 : (ml.contains ol[oi] : Prop)
        · rw [if_neg (by simpa using hc2)]
          by_cases hc3 : (ol.contains ml[ni] : Prop)
          · rw [if_neg (by simpa using hc3)]
            obtain ⟨ho1, hn1⟩ := ih (oi + 1) (ni + 1) (by omega)
            constructor
            · rw [oldView_cons_r, oldView_cons_a, ho1,
                List.drop_eq_getElem_cons ho, numbered]
              simp
            · rw [newView_cons_r, newView_cons_a, hn1,
                List.drop_eq_getElem_cons hn, numbered]
              simp
          · rw [if_pos (by simpa using hc3)]
            obtain ⟨ho1, hn1⟩ := ih oi (ni + 1) (by omega)
            constructor
            · rw [oldView_cons_a, ho1]
            · rw [newView_cons_a, hn1, List.drop_eq_getElem_cons hn, numbered]
              simp
        · rw [if_pos (by simpa using hc2)]
          obtain ⟨ho1, hn1⟩ := ih (oi + 1) ni (by omega)
          constructor
          · rw [oldView_cons_r, ho1, List.drop_eq_getElem_cons ho, numbered]
            simp
          · rw [newView_cons_r, hn1]
    · rw [specLoop, dif_pos ho, dif_neg hn]
      obtain ⟨ho1, hn1⟩ := ih (oi + 1) ni (by omega)
      constructor
      · rw [oldView_cons_r, ho1, List.drop_eq_getElem_cons ho, numbered]
        simp
      · rw [newView_cons_r, hn1]
    · rw [specLoop, dif_neg ho, dif_pos hn]
      obtain ⟨ho1, hn1⟩ := ih oi (ni + 1) (by omega)
      constructor
      · rw [oldView_cons_a, ho1]
      · rw [newView_cons_a, hn1, List.drop_eq_getElem_cons hn, numbered]
        simp
    · rw [specLoop, dif_neg ho, dif_neg hn]
      rw [List.drop_eq_nil_of_le (by omega), List.drop_eq_nil_of_le (by omega)]
      exact ⟨rfl, rfl⟩

lemma length_addedFrom (ls : List String) : ∀ i, (addedFrom i ls).length = ls.length := by
  induction ls with
  | nil => intro i; rfl
  | cons l rest ih => intro i; simp [addedFrom, ih]

lemma get_addedFrom (ls : List String) :
    ∀ i k (hk : k < (addedFrom i ls).length),
      ∃ hk2 : k < ls.length,
        (addedFrom i ls).get ⟨k, hk⟩ = ⟨.added, ls.get ⟨k, hk2⟩, none, some (i + k + 1)⟩ := by
  induction ls with
  | nil => intro i k hk; simp [addedFrom] at hk
  | cons l rest ih =>
    intro i k hk
    cases k with
    | zero => exact ⟨by simp, rfl⟩
    | succ k =>
      have hk' : k < (addedFrom (i + 1) rest).length := by simpa [addedFrom] using hk
      obtain ⟨hk2, heq⟩ := ih (i + 1) k hk'
      refine ⟨by simpa using Nat.succ_lt_succ hk2, ?_⟩
      simpa [addedFrom, Nat.add_assoc, Nat.add_comm, Nat.add_left_comm] using heq

lemma length_removedFrom (ls : List String) : ∀ i, (removedFrom i ls).length = ls.length := by
  induction ls with
  | nil => intro i; rfl
  | cons l rest ih => intro i; simp [removedFrom, ih]

lemma get_removedFrom (ls : List String) :
    ∀ i k (hk : k < (removedFrom i ls).length),
      ∃ hk2 : k < ls.length,
        (removedFrom i ls).get ⟨k, hk⟩ = ⟨.removed, ls.get ⟨k, hk2⟩, some (i + k + 1), none⟩ := by
  induction ls with
  | nil => intro i k hk; simp [removedFrom] at hk
  | cons l rest ih =>
    intro i k hk
    cases k with
    | zero => exact ⟨by simp, rfl⟩
    | succ k =>
      have hk' : k < (removedFrom (i + 1) rest).length := by simpa [removedFrom] using hk
      obtain ⟨hk2, heq⟩ := ih (i + 1) k hk'
      refine ⟨by simpa using Nat.succ_lt_succ hk2, ?_⟩
      simpa [removedFrom, Nat.add_assoc, Nat.add_comm, Nat.add_left_comm] using heq

lemma ne_empty_of_lines_ne_empty {s : String}
    (h : ∀ l ∈ splitLines s, l ≠ "") : s ≠ "" := by
  intro hs
  subst hs
  exact h "" (by rw [splitLines_empty]; exact List.mem_singleton.mpr rfl) rfl

/-! ## Claim theorems: diff engine -/

/-- C1 (amended): for texts all of whose lines are non-empty, `computeDiff`
follows the spec's four cursor rules (it equals the rule-by-rule reference
diff `specDiff`); the claim's example is the witness below. As stated over
all pairs of non-empty texts the claim fails: see the counterexample. -/
theorem computeDiff_follows_cursor_rules (original modified : String)
    (hol : ∀ l ∈ splitLines original, l ≠ "")
    (hml : ∀ l ∈ splitLines modified, l ≠ "") :
    computeDiff original modified = specDiff original modified := by
  have horig : original ≠ "" := ne_empty_of_lines_ne_empty hol
  have hmod : modified ≠ "" := ne_empty_of_lines_ne_empty hml
  have hagree := diffLoop_eq_specLoop (splitLines original) (splitLines modified) hol hml
    ((splitLines original).length + (splitLines modified).length + 100) 0 0 (by omega)
  unfold computeDiff computeDiffAux specDiff
  rw [if_neg (show ¬ (original = "" ∧ modified = "") from fun hand => horig hand.1),
    if_neg (show ¬ (original = "" ∧ modified = "") from fun hand => horig hand.1),
    if_neg horig, if_neg horig, if_neg hmod, if_neg hmod]
  simp only [hagree]

set_option maxRecDepth 40000 in
/-- C1 counterexample: `"a\n"` and `"a"` are non-empty texts, but
`computeDiff` stalls on the trailing empty line (falsy in JS), burns the
iteration cap and drops the `removed` entry the cursor rules demand. -/
theorem computeDiff_cursor_rules_counterexample :
    computeDiff "a\n" "a" = [⟨.unchanged, "a", some 1, some 1⟩] ∧
    specDiff "a\n" "a" =
      [⟨.unchanged, "a", some 1, some 1⟩, ⟨.removed, "", some 2, none⟩] ∧
    computeDiff "a\n" "a" ≠ specDiff "a\n" "a" := by
  have h1 : computeDiff "a\n" "a" = [⟨.unchanged, "a", some 1, some 1⟩] := by decide
  have h2 : specDiff "a\n" "a" =
      [⟨.unchanged, "a", some 1, some 1⟩, ⟨.removed, "", some 2, none⟩] := by
    simp [specDiff, splitLines, splitLinesAux]
    rw [specLoop]
    norm_num
    rw [specLoop]
    norm_num
    rw [specLoop]
    norm_num
  exact ⟨h1, h2, by rw [h1, h2]; simp⟩

/-- C1 witness: the spec's own example, with all lines non-empty; the code
follows the cursor rules and produces exactly the sequence the claim lists. -/
theorem computeDiff_follows_cursor_rules_witness :
    (∀ l ∈ splitLines "a\nb\nc", l ≠ "") ∧ (∀ l ∈ splitLines "a\nx\nc", l ≠ "") ∧
    computeDiff "a\nb\nc" "a\nx\nc" = specDiff "a\nb\nc" "a\nx\nc" ∧
    computeDiff "a\nb\nc" "a\nx\nc" =
      [⟨.unchanged, "a", some 1, some 1⟩, ⟨.removed, "b", some 2, none⟩,
       ⟨.added, "x", none, some 2⟩, ⟨.unchanged, "c", some 3, some 3⟩] :=
  ⟨by decide, by decide,
   computeDiff_follows_cursor_rules "a\nb\nc" "a\nx\nc" (by decide) (by decide),
   by decide⟩

/-- C2: degenerate cases of `computeDiff`: both inputs empty gives `[]`;
an empty original makes every line of `modified` an `added` entry whose
`newLineNumber` is its 1-based position (and no `oldLineNumber`); an empty
modified symmetrically yields `removed` entries numbered by `oldLineNumber`. -/
theorem computeDiff_degenerate (original modified : String) :
    computeDiff "" "" = [] ∧
    (original = "" → modified ≠ "" →
      (computeDiff original modified).length = (splitLines modified).length ∧
      ∀ k (hk : k < (computeDiff original modified).length),
        ∃ hk2 : k < (splitLines modified).length,
          (computeDiff original modified).get ⟨k, hk⟩ =
            ⟨.added, (splitLines modified).get ⟨k, hk2⟩, none, some (k + 1)⟩) ∧
    (original ≠ "" → modified = "" →
      (computeDiff original modified).length = (splitLines original).length ∧
      ∀ k (hk : k < (computeDiff original modified).length),
        ∃ hk2 : k < (splitLines original).length,
          (computeDiff original modified).get ⟨k, hk⟩ =
            ⟨.removed, (splitLines original).get ⟨k, hk2⟩, some (k + 1), none⟩) := by
  refine ⟨by decide, ?_, ?_⟩
  · intro ho hm
    have hdiff : computeDiff original modified = addedFrom 0 (splitLines modified) := by
      unfold computeDiff computeDiffAux
      rw [if_neg (show ¬ (original = "" ∧ modified = "") from fun hand => hm hand.2), if_pos ho]
    rw [hdiff]
    refine ⟨length_addedFrom _ _, ?_⟩
    intro k hk
    obtain ⟨hk2, heq⟩ := get_addedFrom (splitLines modified) 0 k hk
    exact ⟨hk2, by simpa using heq⟩
  · intro ho hm
    have hdiff : computeDiff original modified = removedFrom 0 (splitLines original) := by
      unfold computeDiff computeDiffAux
      rw [if_neg (show ¬ (original = "" ∧ modified = "") from fun hand => ho hand.1),
        if_neg ho, if_pos hm]
    rw [hdiff]
    refine ⟨length_removedFrom _ _, ?_⟩
    intro k hk
    obtain ⟨hk2, heq⟩ := get_removedFrom (splitLines original) 0 k hk
    exact ⟨hk2, by simpa using heq⟩

/-- C2 witness: the spec's test vectors `computeDiff("", "x\ny")` and
`computeDiff("x\ny", "")`, with the hypotheses discharged concretely. -/
theorem computeDiff_degenerate_witness :
    ("" : String) = "" ∧ ("x\ny" : String) ≠ "" ∧
    (computeDiff "" "x\ny").length = (splitLines "x\ny").length ∧
    (computeDiff "x\ny" "").length = (splitLines "x\ny").length ∧
    computeDiff "" "x\ny" = [⟨.added, "x", none, some 1⟩, ⟨.added, "y", none, some 2⟩] ∧
    computeDiff "x\ny" "" = [⟨.removed, "x", some 1, none⟩, ⟨.removed, "y", some 2, none⟩] :=
  ⟨rfl, by decide,
   ((computeDiff_degenerate "" "x\ny").2.1 rfl (by decide)).1,
   ((computeDiff_degenerate "x\ny" "").2.2 (by decide) rfl).1,
   by decide, by decide⟩

/-- C3: diffing a text against itself yields only `unchanged` entries, each
carrying equal `oldLineNumber` and `newLineNumber`, namely the line's
1-based position, with the line itself as content. -/
theorem computeDiff_self_unchanged (A : String) :
    ∀ k (hk : k < (computeDiff A A).length),
      ∃ hk2 : k < (splitLines A).length,
        (computeDiff A A).get ⟨k, hk⟩ =
          ⟨.unchanged, (splitLines A).get ⟨k, hk2⟩, some (k + 1), some (k + 1)⟩ := by
  intro k hk
  by_cases hA : A = ""
  · subst hA
    have : computeDiff "" "" = [] := by decide
    rw [this] at hk
    exact absurd hk (by simp)
  · have hdiff : computeDiff A A = unchangedFrom 0 (splitLines A) := by
      unfold computeDiff computeDiffAux
      rw [if_neg (show ¬ (A = "" ∧ A = "") from fun hand => hA hand.1), if_neg hA, if_neg hA,
        diffLoop_self (splitLines A) _ 0 (by omega)]
      simp
    have hk' : k < (unchangedFrom 0 (splitLines A)).length := hdiff ▸ hk
    obtain ⟨hk2, heq⟩ := get_unchangedFrom (splitLines A) 0 k hk'
    refine ⟨hk2, ?_⟩
    rw [List.get_of_eq hdiff ⟨k, hk⟩]
    simpa using heq

/-- C3 witness: the second line of `computeDiff("x\ny", "x\ny")` is
`unchanged` with both anchors `2`. -/
theorem computeDiff_self_unchanged_witness :
    1 < (computeDiff "x\ny" "x\ny").length ∧
    ∃ hk2 : 1 < (splitLines "x\ny").length,
      (computeDiff "x\ny" "x\ny").get ⟨1, by decide⟩ =
        ⟨.unchanged, (splitLines "x\ny").get ⟨1, hk2⟩, some 2, some 2⟩ :=
  ⟨by decide, computeDiff_self_unchanged "x\ny" 1 (by decide)⟩

set_option maxRecDepth 40000 in
/-- C4 is wrong about the code: on `original = "a\n"`, `modified = "a"` the
loop reaches a state (`oldLine = ""`, `newLine = null`) in which no branch
advances a cursor, so it spins until the iteration cap
(`2 + 1 + 100 = 103` iterations) fires; the defensive abort branch is
reachable and the partial sequence (missing original's trailing empty line)
is returned. -/
theorem computeDiff_abort_reachable :
    diffAborted "a\n" "a" = true ∧
    computeDiff "a\n" "a" = [⟨.unchanged, "a", some 1, some 1⟩] ∧
    (splitLines "a\n").length = 2 := by
  exact ⟨by decide, by decide, by decide⟩

/-- C5 (amended): for texts all of whose lines are non-empty, the output of
`computeDiff` partitions both inputs: the non-`added` entries carry
`oldLineNumber` values exactly `1, …, len(original)` in order with the
original's lines as contents, and the non-`removed` entries carry
`newLineNumber` values exactly `1, …, len(modified)` with the modified's
lines. As stated over all input pairs the claim fails: see the
counterexample. -/
theorem computeDiff_partitions (original modified : String)
    (hol : ∀ l ∈ splitLines original, l ≠ "")
    (hml : ∀ l ∈ splitLines modified, l ≠ "") :
    partitionsDiff original modified := by
  have horig : original ≠ "" := ne_empty_of_lines_ne_empty hol
  have hmod : modified ≠ "" := ne_empty_of_lines_ne_empty hml
  have hagree := computeDiff_follows_cursor_rules original modified hol hml
  unfold partitionsDiff
  rw [hagree]
  unfold specDiff
  rw [if_neg (show ¬ (original = "" ∧ modified = "") from fun hand => horig hand.1),
    if_neg horig, if_neg hmod]
  have hviews := specLoop_views (splitLines original) (splitLines modified)
    ((splitLines original).length + (splitLines modified).length) 0 0 (by omega)
  simpa using hviews

set_option maxRecDepth 40000 in
/-- C5 counterexample: at `("a\n", "a")` the non-`added` entries enumerate
only `(1, "a")` although the original has two lines, so the partition
invariant fails as stated over all input pairs. -/
theorem computeDiff_partitions_counterexample :
    oldView (computeDiff "a\n" "a") = [(1, "a")] ∧
    numbered 0 (splitLines "a\n") = [(1, "a"), (2, "")] ∧
    ¬ partitionsDiff "a\n" "a" := by
  exact ⟨by decide, by decide, by decide⟩

set_option maxRecDepth 40000 in
/-- C5 witness: the partition invariant at the spec's example pair. -/
theorem computeDiff_partitions_witness :
    (∀ l ∈ splitLines "a\nb\nc", l ≠ "") ∧ (∀ l ∈ splitLines "a\nx\nc", l ≠ "") ∧
    partitionsDiff "a\nb\nc" "a\nx\nc" :=
  ⟨by decide, by decide, computeDiff_partitions "a\nb\nc" "a\nx\nc" (by decide) (by decide)⟩

/-! ## Review-comment data model (`models/types.ts`) -/

inductive CommentType where
  | issue
  | suggestion
  | question
  | praise
deriving DecidableEq, Repr

inductive Priority where
  | low
  | medium
  | high
  | critical
deriving DecidableEq, Repr

/-- The string value of a `CommentType` (the TS enum values). -/
def CommentType.toStr : CommentType → String
  | .issue => "issue"
  | .suggestion => "suggestion"
  | .question => "question"
  | .praise => "praise"

/-- The string value of a `Priority` (the TS enum values). -/
def Priority.toStr : Priority → String
  | .low => "low"
  | .medium => "medium"
  | .high => "high"
  | .critical => "critical"

/-- `ReviewComment` from `models/types.ts`; the optional `endLine` becomes
`Option Nat`, numbers are modelled as `Nat` (they are 1-based line numbers). -/
structure ReviewComment where
  id : String
  file : String
  line : Nat
  endLine : Option Nat := none
  comment : String
  type : CommentType
  priority : Priority
  timestamp : String
deriving DecidableEq, Repr

/-! ## Comment repository (`repositories/reviewRepository.ts`)

The repository's state is its `comments` array; each operation is modelled
as a function of that state. -/

namespace ReviewRepository

/-- `findAll()`; the source returns a copy `[...this.comments]`, which as a
value is the list itself. -/
def findAll (comments : List ReviewComment) : List ReviewComment := comments

/-- `findByFile(path)`: `this.comments.filter(c => c.file === filePath)`. -/
def findByFile (comments : List ReviewComment) (filePath : String) : List ReviewComment :=
  comments.filter (fun c => c.file == filePath)

/-- `findById(id)`: `this.comments.find(c => c.id === id)`. -/
def findById (comments : List ReviewComment) (id : String) : Option ReviewComment :=
  comments.find? (fun c => c.id == id)

/-- `save(comment)`: `findIndex` on equal `id`; overwrite in place when
found, else `push`. -/
def save (comments : List ReviewComment) (comment : ReviewComment) : List ReviewComment :=
  match comments.findIdx? (fun c => c.id == comment.id) with
  | some i => comments.set i comment
  | none => comments ++ [comment]

/-- `delete(id)`: `findIndex`; if found, `splice(index, 1)` and return
`true`, else return `false`. The pair is (returned Bool, new state). -/
def delete (comments : List ReviewComment) (id : String) : Bool × List ReviewComment :=
  match comments.findIdx? (fun c => c.id == id) with
  | some i => (true, comments.eraseIdx i)
  | none => (false, comments)

/-- `clear()`: `this.comments = []`. -/
def clear (_comments : List ReviewComment) : List ReviewComment := []

end ReviewRepository

/-! ## Repository lemmas -/

lemma findIdx?_shift {α : Type} (p : α → Bool) (xs : List α) :
    ∀ i, List.findIdx? p xs (i + 1) = (List.findIdx? p xs i).map (· + 1) := by
  induction xs with
  | nil => intro i; rfl
  | cons x rest ih =>
    intro i
    rw [List.findIdx?_cons, List.findIdx?_cons]
    by_cases hp : p x
    · simp [hp]
    · simp only [hp, if_false, Option.map]
      exact ih (i + 1)

lemma findIdx?_cons_zero {α : Type} (p : α → Bool) (x : α) (xs : List α) :
    List.findIdx? p (x :: xs) = if p x then some 0 else (List.findIdx? p xs).map (· + 1) := by
  rw [List.findIdx?_cons]
  by_cases hp : p x
  · simp [hp]
  · simp only [hp, if_false]
    exact findIdx?_shift p xs 0

namespace ReviewRepository

lemma findById_save (comments : List ReviewComment) (c : ReviewComment) :
    findById (save comments c) c.id = some c := by
  induction comments with
  | nil =>
    show findById ([] ++ [c]) c.id = some c
    simp [findById, List.find?_cons]
  | cons x xs ih =>
    unfold save
    rw [findIdx?_cons_zero]
    by_cases hp : (x.id == c.id)
    · rw [if_pos hp]
      show findById (c :: xs) c.id = some c
      simp [findById, List.find?_cons]
    · rw [if_neg hp]
      unfold save at ih
      cases hidx : List.findIdx? (fun cc => cc.id == c.id) xs with
      | none =>
        rw [hidx] at ih
        simp only [Option.map_none']
        show findById ((x :: xs) ++ [c]) c.id = some c
        rw [List.cons_append]
        unfold findById at ih ⊢
        rw [List.find?_cons]
        simp only [Bool.not_eq_true] at hp
        rw [hp]
        exact ih
      | some i =>
        rw [hidx] at ih
        simp only [Option.map_some']
        show findById ((x :: xs).set (i + 1) c) c.id = some c
        rw [List.set_cons_succ]
        unfold findById at ih ⊢
        rw [List.find?_cons]
        simp only [Bool.not_eq_true] at hp
        rw [hp]
        exact ih

lemma length_save_of_mem (comments : List ReviewComment) (c : ReviewComment)
    (h : ∃ x ∈ comments, x.id = c.id) :
    (save comments c).length = comments.length := by
  unfold save
  cases hidx : List.findIdx? (fun cc => cc.id == c.id) comments with
  | none =>
    obtain ⟨x, hx, hid⟩ := h
    have := List.findIdx?_eq_none_iff.mp hidx x hx
    simp [hid] at this
  | some i => simp

lemma save_of_not_mem (comments : List ReviewComment) (c : ReviewComment)
    (h : ∀ x ∈ comments, x.id ≠ c.id) :
    save comments c = comments ++ [c] := by
  unfold save
  have hidx : List.findIdx? (fun cc => cc.id == c.id) comments = none :=
    List.findIdx?_eq_none_iff.mpr (fun x hx => by simp [h x hx])
  rw [hidx]

end ReviewRepository

/-! ## Claim theorems: comment repository -/

/-- C6: `save` is an upsert: after `save(c)`, `findById(c.id)` returns `c`;
if a comment with the same id already exists, `save` replaces in place and
the collection's length is unchanged; otherwise it appends `c`. (`save` is a
total function of the cached comment array, so it cannot raise on valid
input.) -/
theorem save_upsert (comments : List ReviewComment) (c : ReviewComment) :
    ReviewRepository.findById (ReviewRepository.save comments c) c.id = some c ∧
    ((∃ x ∈ comments, x.id = c.id) →
      (ReviewRepository.save comments c).length = comments.length) ∧
    ((∀ x ∈ comments, x.id ≠ c.id) →
      ReviewRepository.save comments c = comments ++ [c]) :=
  ⟨ReviewRepository.findById_save comments c,
   ReviewRepository.length_save_of_mem comments c,
   ReviewRepository.save_of_not_mem comments c⟩

/-- C6 witness: saving a new comment appends it and `findById` finds it;
saving a replacement with the same id keeps the length at 2. -/
theorem save_upsert_witness :
    ReviewRepository.findById
      (ReviewRepository.save
        [⟨"a", "f.ts", 1, none, "one", .issue, .low, "t1"⟩,
         ⟨"b", "f.ts", 2, none, "two", .praise, .high, "t2"⟩]
        ⟨"b", "g.ts", 9, none, "new", .question, .critical, "t3"⟩) "b" =
      some ⟨"b", "g.ts", 9, none, "new", .question, .critical, "t3"⟩ ∧
    (∃ x ∈ [(⟨"a", "f.ts", 1, none, "one", .issue, .low, "t1"⟩ : ReviewComment),
            ⟨"b", "f.ts", 2, none, "two", .praise, .high, "t2"⟩], x.id = "b") ∧
    (ReviewRepository.save
        [⟨"a", "f.ts", 1, none, "one", .issue, .low, "t1"⟩,
         ⟨"b", "f.ts", 2, none, "two", .praise, .high, "t2"⟩]
        ⟨"b", "g.ts", 9, none, "new", .question, .critical, "t3"⟩).length = 2 :=
  ⟨(save_upsert _ _).1, by decide,
   ((save_upsert
      [⟨"a", "f.ts", 1, none, "one", .issue, .low, "t1"⟩,
       ⟨"b", "f.ts", 2, none, "two", .praise, .high, "t2"⟩]
      ⟨"b", "g.ts", 9, none, "new", .question, .critical, "t3"⟩).2.1 (by decide))⟩

lemma delete_bool_eq_any (comments : List ReviewComment) (id : String) :
    (ReviewRepository.delete comments id).1 = comments.any (fun c => c.id == id) := by
  have hiso := @List.findIdx?_isSome _ comments (fun c => c.id == id)
  unfold ReviewRepository.delete
  cases hidx : List.findIdx? (fun c => c.id == id) comments with
  | none => rw [hidx] at hiso; exact hiso
  | some i => rw [hidx] at hiso; exact hiso

lemma delete_found_decomp (comments : List ReviewComment) (id : String)
    (h : (ReviewRepository.delete comments id).1 = true) :
    ∃ l1 x l2, comments = l1 ++ x :: l2 ∧ x.id = id ∧
      (∀ y ∈ l1, y.id ≠ id) ∧
      (ReviewRepository.delete comments id).2 = l1 ++ l2 := by
  induction comments with
  | nil => simp [ReviewRepository.delete, List.findIdx?] at h
  | cons x xs ih =>
    unfold ReviewRepository.delete at h ⊢
    rw [findIdx?_cons_zero] at h ⊢
    by_cases hp : (x.id == id)
    · rw [if_pos hp]
      exact ⟨[], x, xs, by simp, by simpa using hp, by simp, by simp⟩
    · rw [if_neg hp] at h ⊢
      cases hidx : List.findIdx? (fun c => c.id == id) xs with
      | none => rw [hidx] at h; simp at h
      | some i =>
        unfold ReviewRepository.delete at ih
        rw [hidx] at ih
        obtain ⟨l1, y, l2, hdec, hy, hl1, hres⟩ := ih (by simp)
        simp only at hres
        refine ⟨x :: l1, y, l2, by simp [hdec], hy, ?_, ?_⟩
        · intro z hz
          rcases List.mem_cons.mp hz with hzx | hzl
          · subst hzx; simpa using hp
          · exact hl1 z hzl
        · simp only [Option.map_some', List.eraseIdx_cons_succ]
          rw [List.cons_append]
          rw [← hres]

/-- C7: `delete(id)` returns `true` iff a comment with that id exists, and
then removes exactly the first such comment (everything before it has a
different id, the rest is kept verbatim); when it returns `false` — in
particular for any absent id — the collection is left unmodified. -/
theorem delete_contract (comments : List ReviewComment) (id : String) :
    ((ReviewRepository.delete comments id).1 = true ↔ ∃ x ∈ comments, x.id = id) ∧
    ((ReviewRepository.delete comments id).1 = false →
      (ReviewRepository.delete comments id).2 = comments) ∧
    ((ReviewRepository.delete comments id).1 = true →
      ∃ l1 x l2, comments = l1 ++ x :: l2 ∧ x.id = id ∧
        (∀ y ∈ l1, y.id ≠ id) ∧
        (ReviewRepository.delete comments id).2 = l1 ++ l2) := by
  refine ⟨?_, ?_, delete_found_decomp comments id⟩
  · rw [delete_bool_eq_any]
    simp
  · intro h
    unfold ReviewRepository.delete at h ⊢
    cases hidx : List.findIdx? (fun c => c.id == id) comments with
    | none => rfl
    | some i => rw [hidx] at h; simp at h

/-- C7 witness: deleting an absent id returns `false` and keeps the
collection; deleting a present id returns `true` and removes exactly it. -/
theorem delete_contract_witness :
    (ReviewRepository.delete
      [⟨"a", "f.ts", 1, none, "one", .issue, .low, "t1"⟩] "zzz").1 = false ∧
    (ReviewRepository.delete
      [⟨"a", "f.ts", 1, none, "one", .issue, .low, "t1"⟩] "zzz").2 =
      [⟨"a", "f.ts", 1, none, "one", .issue, .low, "t1"⟩] ∧
    (ReviewRepository.delete
      [⟨"a", "f.ts", 1, none, "one", .issue, .low, "t1"⟩,
       ⟨"b", "f.ts", 2, none, "two", .praise, .high, "t2"⟩] "a").1 = true ∧
    (ReviewRepository.delete
      [⟨"a", "f.ts", 1, none, "one", .issue, .low, "t1"⟩,
       ⟨"b", "f.ts", 2, none, "two", .praise, .high, "t2"⟩] "a").2 =
      [⟨"b", "f.ts", 2, none, "two", .praise, .high, "t2"⟩] :=
  ⟨by decide,
   (delete_contract [⟨"a", "f.ts", 1, none, "one", .issue, .low, "t1"⟩] "zzz").2.1 (by decide),
   by decide, by decide⟩

/-! ## Markdown report generator (`services/reviewService.ts`) -/

/-- `COMMENT_TYPE_EMOJIS` from `models/constants`. -/
def COMMENT_TYPE_EMOJIS : CommentType → String
  | .issue => "🐛"
  | .suggestion => "💡"
  | .question => "❓"
  | .praise => "👍"

/-- `capitalizeFirst`: `str.charAt(0).toUpperCase() + str.slice(1)`. -/
def capitalizeFirst (s : String) : String :=
  match s.data with
  | [] => ""
  | ch :: rest => String.mk (ch.toUpper :: rest)

/-- `formatCommentForAI(comment, issueId)`. The end-line suffix mirrors the
JS truthiness test `comment.endLine && comment.endLine !== comment.line`. -/
def formatCommentForAI (c : ReviewComment) (issueId : String) : String :=
  "### " ++ issueId ++ ": " ++ COMMENT_TYPE_EMOJIS c.type ++ " "
    ++ capitalizeFirst c.type.toStr
    ++ "\n\n**File**: `" ++ c.file ++ "`  \n**Line**: " ++ toString c.line
    ++ (match c.endLine with
        | some e => if e != 0 && e != c.line then "-" ++ toString e else ""
        | none => "")
    ++ "  \n\n**Comment**: " ++ c.comment ++ "\n\n---\n\n"

/-- One priority group's body: `group.forEach((comment, index) =>
markdown += formatCommentForAI(comment, label-(index+1)))`. -/
def sectionBody (label : String) : Nat → List ReviewComment → String
  | _, [] => ""
  | i, c :: rest =>
    formatCommentForAI c (label ++ "-" ++ toString (i + 1)) ++ sectionBody label (i + 1) rest

/-- The fixed trailing AI-instruction block appended by `generateMarkdown`
(byte-for-byte, including the source file's mojibake section emoji). -/
def aiInstructions : String :=
  "\n## \u00F0\u0178\u00A4\u2013 AI AGENT INSTRUCTIONS\n\n### Task Overview\nPlease review and fix all issues listed above, prioritizing CRITICAL and HIGH priority items first.\n\n### For Each Issue:\n1. **Locate the file and line number specified**\n2. **Read the surrounding context to understand the problem**\n3. **Implement the suggested fix or your own solution**\n4. **Test that your changes don\x27t break existing functionality**\n\n### Priority Order:\n1. Fix all CRITICAL issues first\n2. Then HIGH priority issues\n3. Then MEDIUM priority issues\n4. Finally LOW priority issues\n\n---\n*Generated by DiffPilot VSCode Extension*\n"

/-- The four priority groups used by `generateMarkdown`, in section order. -/
def criticalOf (comments : List ReviewComment) : List ReviewComment :=
  comments.filter (fun c => c.priority == Priority.critical)

def highOf (comments : List ReviewComment) : List ReviewComment :=
  comments.filter (fun c => c.priority == Priority.high)

def mediumOf (comments : List ReviewComment) : List ReviewComment :=
  comments.filter (fun c => c.priority == Priority.medium)

def lowOf (comments : List ReviewComment) : List ReviewComment :=
  comments.filter (fun c => c.priority == Priority.low)

/-- `generateMarkdown(branch)` of `ReviewService`. The comment collection
(`this.getComments()`) and the impure `new Date().toLocaleString()` are
passed as parameters. Section-header literals are byte-for-byte the source
file's (mojibake) bytes, written with escapes. -/
def generateMarkdown (comments : List ReviewComment) (branch dateStr : String) : String :=
  let critical := criticalOf comments
  let high := highOf comments
  let medium := mediumOf comments
  let low := lowOf comments
  "# Code Review\n\n**Branch**: `" ++ branch ++ "`  \n**Date**: " ++ dateStr
    ++ "  \n**Total Comments**: " ++ toString comments.length
    ++ "  \n\n## Summary\n- **Critical**: " ++ toString critical.length
    ++ "\n- **High Priority**: " ++ toString high.length
    ++ "\n- **Medium Priority**: " ++ toString medium.length
    ++ "\n- **Low Priority**: " ++ toString low.length
    ++ "\n\n"
    ++ (if critical.length > 0 then
          "## \u00F0\u0178\u0161\u00A8 CRITICAL ISSUES\n\n" ++ sectionBody "CRITICAL" 0 critical
        else "")
    ++ (if high.length > 0 then
          "## âš ï¸ HIGH PRIORITY ISSUES\n\n" ++ sectionBody "HIGH" 0 high
        else "")
    ++ (if medium.length > 0 then
          "## \u00F0\u0178\u0178\u00A1 MEDIUM PRIORITY ISSUES\n\n" ++ sectionBody "MEDIUM" 0 medium
        else "")
    ++ (if low.length > 0 then
          "## \u00F0\u0178\u0178\u00A2 LOW PRIORITY ISSUES\n\n" ++ sectionBody "LOW" 0 low
        else "")
    ++ aiInstructions

lemma length_eq_sum_groups (comments : List ReviewComment) :
    comments.length =
      (criticalOf comments).length + (highOf comments).length +
      (mediumOf comments).length + (lowOf comments).length := by
  induction comments with
  | nil => rfl
  | cons c rest ih =>
    unfold criticalOf highOf mediumOf lowOf at ih ⊢
    cases hc : c.priority <;>
      simp [List.filter_cons, hc, ih] <;> omega

set_option maxRecDepth 100000 in
/-- C8: the report generator groups comments by priority: each group is an
order-preserving subsequence of the insertion-ordered collection (filter
keeps insertion order), the four groups partition the collection (the
reported total equals the sum of the per-group counts), and on the
spec's example — insertion order `[Critical, Low, Critical]` — the
generated report is exactly the text with the Critical section first
containing the two critical comments in insertion order labelled
`CRITICAL-1`, `CRITICAL-2`, then the Low section with one comment labelled
`LOW-1`, no High/Medium sections, and reported total 3. -/
theorem generateReport_grouping (comments : List ReviewComment) :
    (criticalOf comments).Sublist comments ∧
    (highOf comments).Sublist comments ∧
    (mediumOf comments).Sublist comments ∧
    (lowOf comments).Sublist comments ∧
    comments.length =
      (criticalOf comments).length + (highOf comments).length +
      (mediumOf comments).length + (lowOf comments).length ∧
    generateMarkdown
      [⟨"1", "a.ts", 3, none, "bad", .issue, .critical, "t1"⟩,
       ⟨"2", "b.ts", 5, none, "meh", .suggestion, .low, "t2"⟩,
       ⟨"3", "c.ts", 7, some 9, "ugh", .question, .critical, "t3"⟩] "main" "D" =
      "# Code Review\n\n**Branch**: `main`  \n**Date**: D  \n**Total Comments**: 3  \n\n## Summary\n- **Critical**: 2\n- **High Priority**: 0\n- **Medium Priority**: 0\n- **Low Priority**: 1\n\n"
      ++ "## \u00F0\u0178\u0161\u00A8 CRITICAL ISSUES\n\n"
      ++ "### CRITICAL-1: 🐛 Issue\n\n**File**: `a.ts`  \n**Line**: 3  \n\n**Comment**: bad\n\n---\n\n"
      ++ "### CRITICAL-2: ❓ Question\n\n**File**: `c.ts`  \n**Line**: 7-9  \n\n**Comment**: ugh\n\n---\n\n"
      ++ "## \u00F0\u0178\u0178\u00A2 LOW PRIORITY ISSUES\n\n"
      ++ "### LOW-1: 💡 Suggestion\n\n**File**: `b.ts`  \n**Line**: 5  \n\n**Comment**: meh\n\n---\n\n"
      ++ "\n## \u00F0\u0178\u00A4\u2013 AI AGENT INSTRUCTIONS\n\n### Task Overview\nPlease review and fix all issues listed above, prioritizing CRITICAL and HIGH priority items first.\n\n### For Each Issue:\n1. **Locate the file and line number specified**\n2. **Read the surrounding context to understand the problem**\n3. **Implement the suggested fix or your own solution**\n4. **Test that your changes don\x27t break existing functionality**\n\n### Priority Order:\n1. Fix all CRITICAL issues first\n2. Then HIGH priority issues\n3. Then MEDIUM priority issues\n4. Finally LOW priority issues\n\n---\n*Generated by DiffPilot VSCode Extension*\n" :=
  ⟨List.filter_sublist _, List.filter_sublist _, List.filter_sublist _, List.filter_sublist _,
   length_eq_sum_groups comments, by decide⟩

/-! ## Branch-name validation (`utils/validation.ts`, `PathValidator`) -/

/-- A character matched by the regex `[\x00-\x1f\x7f ~^:?*\[\\]` of
`validateBranchName`. -/
def isInvalidBranchChar (c : Char) : Bool :=
  decide (c.toNat ≤ 0x1f) || c.toNat == 0x7f || c == ' ' || c == '~' || c == '^'
    || c == ':' || c == '?' || c == '*' || c == '[' || c == '\\'

/-- `pat` occurs as a contiguous substring: JS `s.includes(pat)`. -/
def listHasSub (pat : List Char) : List Char → Bool
  | [] => pat.isEmpty
  | c :: rest => pat.isPrefixOf (c :: rest) || listHasSub pat rest

/-- `s.startsWith(pre)` on JS strings. -/
def strStartsWith (s pre : String) : Bool := pre.data.isPrefixOf s.data

/-- `s.endsWith(suf)` on JS strings. -/
def strEndsWith (s suf : String) : Bool := suf.data.isSuffixOf s.data

/-- `s.includes(pat)` on JS strings. -/
def strIncludes (s pat : String) : Bool := listHasSub pat.data s.data

/-- `PathValidator.validateBranchName`: the five sequential checks of the
source, throwing (modelled as `Except.error` with the thrown message) at the
first violation, and returning the branch name unchanged otherwise. -/
def validateBranchName (branchName : String) : Except String String :=
  if branchName.data.any isInvalidBranchChar then
    .error "Invalid branch name: contains forbidden characters"
  else if strStartsWith branchName "." || strStartsWith branchName "-" then
    .error "Invalid branch name: cannot start with . or -"
  else if strEndsWith branchName "." || strEndsWith branchName ".lock" then
    .error "Invalid branch name: invalid ending"
  else if strIncludes branchName ".." || strIncludes branchName "//" then
    .error "Invalid branch name: contains invalid sequences"
  else if branchName.data.length > 255 then
    .error "Invalid branch name: too long (max 255 characters)"
  else .ok branchName

/-- The claim's rejection conditions, stated in the claim's own terms: a
control character (C0 or DEL), a space or one of `~ ^ : ? * [ \`, a leading
`.` or `-`, a trailing `.` or `.lock`, an occurrence of `..` or `//`, or
length over 255. -/
def branchRejectSpec (b : String) : Prop :=
  (∃ c ∈ b.data, c.toNat ≤ 0x1f ∨ c.toNat = 0x7f ∨ c = ' ' ∨ c = '~' ∨ c = '^'
      ∨ c = ':' ∨ c = '?' ∨ c = '*' ∨ c = '[' ∨ c = '\\') ∨
  ['.'] <+: b.data ∨ ['-'] <+: b.data ∨
  ['.'] <:+ b.data ∨ ['.', 'l', 'o', 'c', 'k'] <:+ b.data ∨
  ['.', '.'] <:+: b.data ∨ ['/', '/'] <:+: b.data ∨
  b.data.length > 255

instance (b : String) : Decidable (branchRejectSpec b) := by
  unfold branchRejectSpec; infer_instance

lemma listHasSub_iff (pat : List Char) :
    ∀ l, listHasSub pat l = true ↔ pat <:+: l := by
  intro l
  induction l with
  | nil =>
    simp only [listHasSub, List.infix_nil, List.isEmpty_iff]
  | cons c rest ih =>
    simp only [listHasSub, Bool.or_eq_true, List.isPrefixOf_iff_prefix, ih,
      List.infix_cons_iff]

lemma isInvalidBranchChar_iff (c : Char) :
    isInvalidBranchChar c = true ↔
      (c.toNat ≤ 0x1f ∨ c.toNat = 0x7f ∨ c = ' ' ∨ c = '~' ∨ c = '^'
        ∨ c = ':' ∨ c = '?' ∨ c = '*' ∨ c = '[' ∨ c = '\\') := by
  simp [isInvalidBranchChar, decide_eq_true_iff, or_assoc]

/-- C9: `validateBranchName` accepts (returns the name unchanged) exactly
the names violating none of the claim's conditions, and rejects (throws on)
every name satisfying one of them. -/
theorem validateBranchName_contract (b : String) :
    ((∃ r, validateBranchName b = .ok r) ↔ ¬ branchRejectSpec b) ∧
    (∀ r, validateBranchName b = .ok r → r = b) := by
  constructor
  · unfold validateBranchName
    by_cases h1 : b.data.any isInvalidBranchChar
    · rw [if_pos h1]
      simp only [List.any_eq_true, isInvalidBranchChar_iff] at h1
      simp [branchRejectSpec, h1]
    · rw [if_neg h1]
      simp only [List.any_eq_true, isInvalidBranchChar_iff] at h1
      push_neg at h1
      by_cases h2 : (strStartsWith b "." || strStartsWith b "-") = true
      · rw [if_pos h2]
        simp only [strStartsWith, Bool.or_eq_true, List.isPrefixOf_iff_prefix] at h2
        constructor
        · intro hex
          obtain ⟨r, hr⟩ := hex
          exact absurd hr (by simp)
        · intro hno
          exfalso
          apply hno
          unfold branchRejectSpec
          rcases h2 with h2 | h2
          · exact Or.inr (Or.inl (by simpa using h2))
          · exact Or.inr (Or.inr (Or.inl (by simpa using h2)))
      · rw [if_neg h2]
        simp only [strStartsWith, Bool.or_eq_true, List.isPrefixOf_iff_prefix] at h2
        push_neg at h2
        by_cases h3 : (strEndsWith b "." || strEndsWith b ".lock") = true
        · rw [if_pos h3]
          simp only [strEndsWith, Bool.or_eq_true, List.isSuffixOf_iff_suffix] at h3
          constructor
          · exact fun hex => absurd hex.choose_spec (by simp)
          · intro hno
            exfalso
            apply hno
            unfold branchRejectSpec
            rcases h3 with h3 | h3
            · exact Or.inr (Or.inr (Or.inr (Or.inl (by simpa using h3))))
            · exact Or.inr (Or.inr (Or.inr (Or.inr (Or.inl (by simpa using h3)))))
        · rw [if_neg h3]
          simp only [strEndsWith, Bool.or_eq_true, List.isSuffixOf_iff_suffix] at h3
          push_neg at h3
          by_cases h4 : (strIncludes b ".." || strIncludes b "//") = true
          · rw [if_pos h4]
            simp only [strIncludes, Bool.or_eq_true, listHasSub_iff] at h4
            constructor
            · exact fun hex => absurd hex.choose_spec (by simp)
            · intro hno
              exfalso
              apply hno
              unfold branchRejectSpec
              rcases h4 with h4 | h4
              · exact Or.inr (Or.inr (Or.inr (Or.inr (Or.inr (Or.inl (by simpa using h4))))))
              · exact Or.inr (Or.inr (Or.inr (Or.inr (Or.inr (Or.inr (Or.inl (by simpa using h4)))))))
          · rw [if_neg h4]
            simp only [strIncludes, Bool.or_eq_true, listHasSub_iff] at h4
            push_neg at h4
            by_cases h5 : b.data.length > 255
            · rw [if_pos h5]
              constructor
              · exact fun hex => absurd hex.choose_spec (by simp)
              · intro hno
                exact absurd (Or.inr (Or.inr (Or.inr (Or.inr (Or.inr (Or.inr (Or.inr h5)))))))
                  hno
            · rw [if_neg h5]
              constructor
              · intro _
                unfold branchRejectSpec
                push_neg
                refine ⟨?_, ?_, ?_, ?_, ?_, ?_, ?_, by omega⟩ <;>
                  first
                    | (intro c hc; have := h1 c hc; tauto)
                    | simpa using h2.1
                    | simpa using h2.2
                    | simpa using h3.1
                    | simpa using h3.2
                    | simpa using h4.1
                    | simpa using h4.2
              · intro _
                exact ⟨b, rfl⟩
  · intro r hr
    unfold validateBranchName at hr
    split at hr
    · exact absurd hr (by simp)
    · split at hr
      · exact absurd hr (by simp)
      · split at hr
        · exact absurd hr (by simp)
        · split at hr
          · exact absurd hr (by simp)
          · split at hr
            · exact absurd hr (by simp)
            · simpa using hr.symm

/-- C9 witness: the spec's three examples — `"main"` is accepted and
returned unchanged; `"feature/../x"` (contains `..`) and `".hidden"`
(leading `.`) are rejected. -/
theorem validateBranchName_contract_witness :
    validateBranchName "main" = .ok "main" ∧
    ¬ (∃ r, validateBranchName "feature/../x" = .ok r) ∧
    ¬ (∃ r, validateBranchName ".hidden" = .ok r) := by
  have hmain := validateBranchName_contract "main"
  have hok : ∃ r, validateBranchName "main" = .ok r := hmain.1.mpr (by decide)
  refine ⟨?_, ?_, ?_⟩
  · obtain ⟨r, hr⟩ := hok
    rw [hr, hmain.2 r hr]
  · intro hex
    exact ((validateBranchName_contract "feature/../x").1.mp hex) (by decide)
  · intro hex
    exact ((validateBranchName_contract ".hidden").1.mp hex) (by decide)

/-! ## JSON values and a concrete serializer/parser pair

`saveToFile`/`loadFromFile` call the language built-ins `JSON.stringify` /
`JSON.parse`, which are not part of this repository. Modelled from the
spec: the JSON side-artifact `{branch, comments, lastUpdated}` is "the
lossless, round-trippable representation", so the built-ins are modelled by
a concrete JSON value type with a real serializer and a real recursive
parser (numbers are the integers our artifact contains; the pretty-printing
whitespace of `JSON.stringify(v, null, 2)` is omitted — the parser skips
whitespace, so it is immaterial to the round trip). -/

inductive Json where
  | null
  | bool (b : Bool)
  | num (n : Int)
  | str (s : String)
  | arr (elems : List Json)
  | obj (fields : List (String × Json))
deriving Repr

/-- A hexadecimal digit character (lowercase, as `JSON.stringify` emits). -/
def hexDigit (n : Nat) : Char :=
  if n < 10 then Char.ofNat (48 + n) else Char.ofNat (87 + n)

/-- JSON string escaping of one character: `"` and `\` are escaped, control
characters become `\u00XX`, everything else passes through. -/
def escapeChar (c : Char) : List Char :=
  if c = '"' then ['\\', '"']
  else if c = '\\' then ['\\', '\\']
  else if c.toNat < 0x20 then
    ['\\', 'u', '0', '0', hexDigit (c.toNat / 16), hexDigit (c.toNat % 16)]
  else [c]

def escapeList : List Char → List Char
  | [] => []
  | c :: rest => escapeChar c ++ escapeList rest

/-- A JSON string literal with quotes and escapes. -/
def renderString (s : String) : List Char :=
  '"' :: (escapeList s.data ++ ['"'])

/-- Decimal digits of a natural number, most significant first. -/
def natToChars (n : Nat) : List Char :=
  if n < 10 then [Char.ofNat (48 + n)]
  else natToChars (n / 10) ++ [Char.ofNat (48 + n % 10)]
termination_by n
decreasing_by exact Nat.div_lt_self (by omega) (by omega)

/-- A JSON integer literal. -/
def intToChars (n : Int) : List Char :=
  if n < 0 then '-' :: natToChars n.natAbs else natToChars n.toNat

mutual

/-- Serializes a JSON value (model of `JSON.stringify`, without the
optional pretty-printing whitespace). -/
def renderJson : Json → List Char
  | .null => "null".data
  | .bool true => "true".data
  | .bool false => "false".data
  | .num n => intToChars n
  | .str s => renderString s
  | .arr es => '[' :: (renderElems es ++ [']'])
  | .obj fs => '{' :: (renderFields fs ++ ['}'])

def renderElems : List Json → List Char
  | [] => []
  | [e] => renderJson e
  | e :: e2 :: rest => renderJson e ++ ',' :: renderElems (e2 :: rest)

def renderFields : List (String × Json) → List Char
  | [] => []
  | [(k, v)] => renderString k ++ ':' :: renderJson v
  | (k, v) :: f2 :: rest => renderString k ++ ':' :: renderJson v ++ ',' :: renderFields (f2 :: rest)

end

/-- JSON whitespace. -/
def isWs (c : Char) : Bool := c = ' ' || c = '\n' || c = '\t' || c = '\r'

def skipWs : List Char → List Char
  | [] => []
  | c :: rest => if isWs c then skipWs rest else c :: rest

/-- The value of a hexadecimal digit character. -/
def hexVal (c : Char) : Option Nat :=
  if 48 ≤ c.toNat ∧ c.toNat ≤ 57 then some (c.toNat - 48)
  else if 97 ≤ c.toNat ∧ c.toNat ≤ 102 then some (c.toNat - 87)
  else if 65 ≤ c.toNat ∧ c.toNat ≤ 70 then some (c.toNat - 55)
  else none

/-- The value of a decimal digit character. -/
def digitVal (c : Char) : Option Nat :=
  if 48 ≤ c.toNat ∧ c.toNat ≤ 57 then some (c.toNat - 48) else none

/-- Decodes a single-character escape. -/
def escDecode (e : Char) : Option Char :=
  if e = '"' then some '"'
  else if e = '\\' then some '\\'
  else if e = '/' then some '/'
  else if e = 'n' then some '\n'
  else if e = 't' then some '\t'
  else if e = 'r' then some '\r'
  else if e = 'b' then some (Char.ofNat 8)
  else if e = 'f' then some (Char.ofNat 12)
  else none

/-- Expects `pat` as a literal prefix and returns the remainder. -/
def expectTail : List Char → List Char → Option (List Char)
  | [], l => some l
  | _ :: _, [] => none
  | p :: ps, c :: cs => if c = p then expectTail ps cs else none

mutual

/-- Parses a JSON string body (after the opening quote) up to and including
the closing quote, un-escaping as it goes. -/
def parseStringBody : List Char → Option (List Char × List Char)
  | [] => none
  | c :: rest =>
    if c = '"' then some ([], rest)
    else if c = '\\' then parseEscape rest
    else (parseStringBody rest).map (fun p => (c :: p.1, p.2))

/-- Parses one escape sequence (after the backslash) followed by the rest of
the string body. -/
def parseEscape : List Char → Option (List Char × List Char)
  | [] => none
  | e :: rest2 =>
    if e = 'u' then
      match rest2 with
      | h1 :: h2 :: h3 :: h4 :: rest3 =>
        match hexVal h1, hexVal h2, hexVal h3, hexVal h4 with
        | some a, some b, some c2, some d =>
          (parseStringBody rest3).map
            (fun p => (Char.ofNat (4096 * a + 256 * b + 16 * c2 + d) :: p.1, p.2))
        | _, _, _, _ => none
      | _ => none
    else
      match escDecode e with
      | some ch => (parseStringBody rest2).map (fun p => (ch :: p.1, p.2))
      | none => none

end

/-- Splits the maximal run of leading decimal digits off a character list. -/
def takeDigits : List Char → List Nat × List Char
  | [] => ([], [])
  | c :: rest =>
    match digitVal c with
    | some d =>
      match takeDigits rest with
      | (ds, r) => (d :: ds, r)
    | none => ([], c :: rest)

/-- Folds a digit list into a number, most significant first. -/
def digitsToNat (acc : Nat) : List Nat → Nat
  | [] => acc
  | d :: ds => digitsToNat (acc * 10 + d) ds

/-- Parses a JSON integer literal. -/
def parseNumber : List Char → Option (Int × List Char)
  | [] => none
  | c :: rest =>
    if c = '-' then
      match takeDigits rest with
      | (ds, r) => if ds.isEmpty then none else some (-(digitsToNat 0 ds : Int), r)
    else
      match takeDigits (c :: rest) with
      | (ds, r) => if ds.isEmpty then none else some ((digitsToNat 0 ds : Int), r)

mutual

/-- Parses one JSON value (model of `JSON.parse`, fuel-indexed; the fuel
only bounds recursion and any fuel at least the input length suffices). -/
def parseVal : Nat → List Char → Option (Json × List Char)
  | 0, _ => none
  | fuel + 1, input => parseValCore fuel (skipWs input)
termination_by fuel input => fuel * 32 + 4
decreasing_by all_goals omega

/-- Dispatches on the first significant character of a value. -/
def parseValCore : Nat → List Char → Option (Json × List Char)
  | _, [] => none
  | fuel, c :: rest =>
    if c = 'n' then (expectTail ['u', 'l', 'l'] rest).map (fun r => (Json.null, r))
    else if c = 't' then (expectTail ['r', 'u', 'e'] rest).map (fun r => (Json.bool true, r))
    else if c = 'f' then (expectTail ['a', 'l', 's', 'e'] rest).map (fun r => (Json.bool false, r))
    else if c = '"' then (parseStringBody rest).map (fun p => (Json.str (String.mk p.1), p.2))
    else if c = '[' then parseArrTail fuel rest
    else if c = '{' then parseObjTail fuel rest
    else (parseNumber (c :: rest)).map (fun p => (Json.num p.1, p.2))
termination_by fuel input => fuel * 32 + 20
decreasing_by all_goals omega

/-- After `[`: skips whitespace before the first element or `]`. -/
def parseArrTail : Nat → List Char → Option (Json × List Char)
  | fuel, l => arrTailCore fuel (skipWs l)
termination_by fuel l => fuel * 32 + 19
decreasing_by all_goals omega

/-- Either an immediately closed empty array or element parsing. -/
def arrTailCore : Nat → List Char → Option (Json × List Char)
  | _, [] => none
  | fuel, c :: r2 =>
    if c = ']' then some (Json.arr [], r2)
    else (parseElems fuel (c :: r2)).map (fun p => (Json.arr p.1, p.2))
termination_by fuel l => fuel * 32 + 17
decreasing_by all_goals omega

/-- After `{`: skips whitespace before the first field or `}`. -/
def parseObjTail : Nat → List Char → Option (Json × List Char)
  | fuel, l => objTailCore fuel (skipWs l)
termination_by fuel l => fuel * 32 + 18
decreasing_by all_goals omega

/-- Either an immediately closed empty object or field parsing. -/
def objTailCore : Nat → List Char → Option (Json × List Char)
  | _, [] => none
  | fuel, c :: r2 =>
    if c = '}' then some (Json.obj [], r2)
    else (parseFields fuel (c :: r2)).map (fun p => (Json.obj p.1, p.2))
termination_by fuel l => fuel * 32 + 16
decreasing_by all_goals omega

/-- Parses the elements of a non-empty JSON array, including the closing
bracket. -/
def parseElems : Nat → List Char → Option (List Json × List Char)
  | 0, _ => none
  | fuel + 1, input =>
    match parseVal fuel input with
    | none => none
    | some (v, rest) => elemsCont fuel v rest
termination_by fuel input => fuel * 32 + 6
decreasing_by all_goals omega

/-- After one array element: skips whitespace before `,` or `]`. -/
def elemsCont : Nat → Json → List Char → Option (List Json × List Char)
  | fuel, v, rest => elemsContCore fuel v (skipWs rest)
termination_by fuel v rest => fuel * 32 + 15
decreasing_by all_goals omega

/-- A comma and more elements, or the closing bracket. -/
def elemsContCore : Nat → Json → List Char → Option (List Json × List Char)
  | _, _, [] => none
  | fuel, v, c :: r2 =>
    if c = ',' then (parseElems fuel r2).map (fun p => (v :: p.1, p.2))
    else if c = ']' then some ([v], r2)
    else none
termination_by fuel v rest => fuel * 32 + 14
decreasing_by all_goals omega

/-- Parses the fields of a non-empty JSON object, including the closing
brace. -/
def parseFields : Nat → List Char → Option (List (String × Json) × List Char)
  | 0, _ => none
  | fuel + 1, input => fieldsStart fuel (skipWs input)
termination_by fuel input => fuel * 32 + 5
decreasing_by all_goals omega

/-- A field must start with a quoted key. -/
def fieldsStart : Nat → List Char → Option (List (String × Json) × List Char)
  | _, [] => none
  | fuel, c :: krest => if c = '"' then fieldsKey fuel krest else none
termination_by fuel input => fuel * 32 + 13
decreasing_by all_goals omega

/-- Parses a field key body (after its opening quote). -/
def fieldsKey : Nat → List Char → Option (List (String × Json) × List Char)
  | fuel, krest =>
    match parseStringBody krest with
    | none => none
    | some (kcs, rest1) => fieldsColon fuel kcs rest1
termination_by fuel krest => fuel * 32 + 12
decreasing_by all_goals omega

/-- Skips whitespace before the colon after a field key. -/
def fieldsColon : Nat → List Char → List Char → Option (List (String × Json) × List Char)
  | fuel, kcs, rest1 => colonCore fuel kcs (skipWs rest1)
termination_by fuel kcs rest1 => fuel * 32 + 11
decreasing_by all_goals omega

/-- Expects the colon after a field key. -/
def colonCore : Nat → List Char → List Char → Option (List (String × Json) × List Char)
  | _, _, [] => none
  | fuel, kcs, c2 :: rest2 => if c2 = ':' then fieldsVal fuel kcs rest2 else none
termination_by fuel kcs rest1 => fuel * 32 + 10
decreasing_by all_goals omega

/-- Parses a field value. -/
def fieldsVal : Nat → List Char → List Char → Option (List (String × Json) × List Char)
  | fuel, kcs, rest2 =>
    match parseVal fuel rest2 with
    | none => none
    | some (v, rest3) => fieldsAfter fuel kcs v rest3
termination_by fuel kcs rest2 => fuel * 32 + 9
decreasing_by all_goals omega

/-- After one field: skips whitespace before `,` or `}`. -/
def fieldsAfter : Nat → List Char → Json → List Char → Option (List (String × Json) × List Char)
  | fuel, kcs, v, rest3 => afterCore fuel kcs v (skipWs rest3)
termination_by fuel kcs v rest3 => fuel * 32 + 8
decreasing_by all_goals omega

/-- A comma and more fields, or the closing brace. -/
def afterCore : Nat → List Char → Json → List Char → Option (List (String × Json) × List Char)
  | _, _, _, [] => none
  | fuel, kcs, v, c3 :: r2 =>
    if c3 = ',' then (parseFields fuel r2).map (fun p => ((String.mk kcs, v) :: p.1, p.2))
    else if c3 = '}' then some ([(String.mk kcs, v)], r2)
    else none
termination_by fuel kcs v rest3 => fuel * 32 + 7
decreasing_by all_goals omega

end

/-! ## JSON codec round-trip lemmas -/

/-- Whether the input starts with a decimal digit (a number parse would
consume into it). -/
def digitStart : List Char → Bool
  | [] => false
  | c :: _ => (digitVal c).isSome

lemma hexVal_hexDigit (d : Nat) (h : d < 16) : hexVal (hexDigit d) = some d := by
  interval_cases d <;> decide

lemma parseStringBody_quote (X : List Char) : parseStringBody ('"' :: X) = some ([], X) := by
  rw [parseStringBody.eq_def]; exact rfl

lemma parseStringBody_backslash (X : List Char) :
    parseStringBody ('\\' :: X) = parseEscape X := by
  rw [parseStringBody.eq_def]; exact rfl

lemma parseStringBody_plain (c : Char) (h1 : c ≠ '"') (h2 : c ≠ '\\') (X : List Char) :
    parseStringBody (c :: X) = (parseStringBody X).map (fun p => (c :: p.1, p.2)) := by
  rw [parseStringBody.eq_def]
  show (if c = '"' then some ([], X)
    else if c = '\\' then parseEscape X
    else (parseStringBody X).map (fun p => (c :: p.1, p.2))) = _
  rw [if_neg h1, if_neg h2]

lemma parseEscape_quote (X : List Char) :
    parseEscape ('"' :: X) = (parseStringBody X).map (fun p => ('"' :: p.1, p.2)) := by
  rw [parseEscape.eq_def]; exact rfl

lemma parseEscape_backslash (X : List Char) :
    parseEscape ('\\' :: X) = (parseStringBody X).map (fun p => ('\\' :: p.1, p.2)) := by
  rw [parseEscape.eq_def]; exact rfl

lemma parseEscape_hex (a b : Char) (X : List Char) :
    parseEscape ('u' :: '0' :: '0' :: a :: b :: X) =
      (match hexVal '0', hexVal '0', hexVal a, hexVal b with
       | some a2, some b2, some c2, some d =>
         (parseStringBody X).map
           (fun p => (Char.ofNat (4096 * a2 + 256 * b2 + 16 * c2 + d) :: p.1, p.2))
       | _, _, _, _ => none) := by
  rw [parseEscape.eq_def]; exact rfl

lemma parseStringBody_escape (cs : List Char) :
    ∀ rest, parseStringBody (escapeList cs ++ '"' :: rest) = some (cs, rest) := by
  induction cs with
  | nil => intro rest; exact parseStringBody_quote rest
  | cons c cs' ih =>
    intro rest
    rw [show escapeList (c :: cs') = escapeChar c ++ escapeList cs' from rfl, List.append_assoc]
    unfold escapeChar
    by_cases h1 : c = '"'
    · rw [if_pos h1, show (['\\', '"'] : List Char) ++ (escapeList cs' ++ '"' :: rest) =
        '\\' :: '"' :: (escapeList cs' ++ '"' :: rest) from rfl,
        parseStringBody_backslash, parseEscape_quote, ih rest, h1]
      rfl
    · rw [if_neg h1]
      by_cases h2 : c = '\\'
      · rw [if_pos h2, show (['\\', '\\'] : List Char) ++ (escapeList cs' ++ '"' :: rest) =
          '\\' :: '\\' :: (escapeList cs' ++ '"' :: rest) from rfl,
          parseStringBody_backslash, parseEscape_backslash, ih rest, h2]
        rfl
      · rw [if_neg h2]
        by_cases h3 : c.toNat < 0x20
        · rw [if_pos h3, show (['\\', 'u', '0', '0', hexDigit (c.toNat / 16),
              hexDigit (c.toNat % 16)] : List Char) ++ (escapeList cs' ++ '"' :: rest) =
            '\\' :: 'u' :: '0' :: '0' :: hexDigit (c.toNat / 16) :: hexDigit (c.toNat % 16) ::
              (escapeList cs' ++ '"' :: rest) from rfl,
            parseStringBody_backslash, parseEscape_hex,
            hexVal_hexDigit (c.toNat / 16) (by omega), hexVal_hexDigit (c.toNat % 16) (by omega),
            show hexVal '0' = some 0 from rfl, ih rest]
          show some (Char.ofNat (4096 * 0 + 256 * 0 + 16 * (c.toNat / 16) + c.toNat % 16) :: cs',
            rest) = some (c :: cs', rest)
          have harith : 4096 * 0 + 256 * 0 + 16 * (c.toNat / 16) + c.toNat % 16 = c.toNat := by
            omega
          rw [harith, Char.ofNat_toNat]
        · rw [if_neg h3, List.singleton_append, parseStringBody_plain c h1 h2, ih rest]
          rfl

/-- Digits of a natural number, base 10, most significant first
(specification helper for the number round trip). -/
def digitsList (n : Nat) : List Nat :=
  if n < 10 then [n] else digitsList (n / 10) ++ [n % 10]
termination_by n
decreasing_by exact Nat.div_lt_self (by omega) (by omega)

lemma digitVal_digit (d : Nat) (h : d < 10) : digitVal (Char.ofNat (48 + d)) = some d := by
  interval_cases d <;> decide

lemma takeDigits_natToChars (n : Nat) :
    ∀ rest, takeDigits (natToChars n ++ rest) =
      (digitsList n ++ (takeDigits rest).1, (takeDigits rest).2) := by
  induction n using Nat.strong_induction_on with
  | _ n ih =>
    intro rest
    rw [natToChars, digitsList]
    by_cases h : n < 10
    · rw [if_pos h, if_pos h, List.singleton_append, takeDigits, digitVal_digit n h]
      rfl
    · rw [if_neg h, if_neg h, List.append_assoc, List.singleton_append]
      rw [ih (n / 10) (Nat.div_lt_self (by omega) (by omega))]
      rw [takeDigits, digitVal_digit (n % 10) (by omega)]
      simp

lemma digitsToNat_append (xs ys : List Nat) :
    ∀ acc, digitsToNat acc (xs ++ ys) = digitsToNat (digitsToNat acc xs) ys := by
  induction xs with
  | nil => intro acc; rfl
  | cons x xs' ih => intro acc; rw [List.cons_append, digitsToNat, digitsToNat, ih]

lemma digitsToNat_digitsList (n : Nat) :
    ∀ acc, digitsToNat acc (digitsList n) = acc * 10 ^ (digitsList n).length + n := by
  induction n using Nat.strong_induction_on with
  | _ n ih =>
    intro acc
    rw [digitsList]
    by_cases h : n < 10
    · rw [if_pos h]
      show acc * 10 + n = acc * 10 ^ 1 + n
      ring
    · rw [if_neg h, digitsToNat_append, ih (n / 10) (Nat.div_lt_self (by omega) (by omega))]
      show (acc * 10 ^ (digitsList (n / 10)).length + n / 10) * 10 + n % 10 = _
      rw [List.length_append, List.length_singleton, pow_succ]
      have hdm : n / 10 * 10 + n % 10 = n := by omega
      nlinarith [hdm]

lemma digitsList_ne_nil (n : Nat) : digitsList n ≠ [] := by
  rw [digitsList]
  by_cases h : n < 10
  · rw [if_pos h]; simp
  · rw [if_neg h]; simp

lemma natToChars_head (n : Nat) :
    ∃ c tail, natToChars n = c :: tail ∧ 48 ≤ c.toNat ∧ c.toNat ≤ 57 := by
  induction n using Nat.strong_induction_on with
  | _ n ih =>
    rw [natToChars]
    by_cases h : n < 10
    · rw [if_pos h]
      refine ⟨Char.ofNat (48 + n), [], rfl, ?_, ?_⟩ <;> (interval_cases n <;> decide)
    · rw [if_neg h]
      obtain ⟨c, tail, heq, hc1, hc2⟩ := ih (n / 10) (Nat.div_lt_self (by omega) (by omega))
      exact ⟨c, tail ++ [Char.ofNat (48 + n % 10)], by rw [heq]; rfl, hc1, hc2⟩

lemma takeDigits_of_digitStart_false (rest : List Char) (h : digitStart rest = false) :
    takeDigits rest = ([], rest) := by
  cases rest with
  | nil => rfl
  | cons c r =>
    have h' : (digitVal c).isSome = false := h
    rw [takeDigits]
    cases hd : digitVal c with
    | none => rfl
    | some d => rw [hd] at h'; simp at h'

lemma parseNumber_intToChars (n : Int) (rest : List Char) (h : digitStart rest = false) :
    parseNumber (intToChars n ++ rest) = some (n, rest) := by
  unfold intToChars
  by_cases hneg : n < 0
  · rw [if_pos hneg, List.cons_append, parseNumber, if_pos rfl,
      takeDigits_natToChars, takeDigits_of_digitStart_false rest h]
    show (if (digitsList n.natAbs ++ ([] : List ℕ)).isEmpty then none
      else some (-(digitsToNat 0 (digitsList n.natAbs ++ ([] : List ℕ)) : Int), rest)) =
      some (n, rest)
    rw [List.append_nil, if_neg (by simp [digitsList_ne_nil]), digitsToNat_digitsList]
    simp only [Nat.zero_mul, Nat.zero_add]
    have hval : -((n.natAbs : Nat) : Int) = n := by omega
    rw [hval]
  · rw [if_neg hneg]
    obtain ⟨c, tail, heq, hc1, hc2⟩ := natToChars_head n.toNat
    rw [heq, List.cons_append, parseNumber,
      if_neg (fun hc => by rw [hc] at hc1; exact absurd hc1 (by decide)),
      ← List.cons_append, ← heq,
      takeDigits_natToChars, takeDigits_of_digitStart_false rest h]
    show (if (digitsList n.toNat ++ ([] : List ℕ)).isEmpty then none
      else some ((digitsToNat 0 (digitsList n.toNat ++ ([] : List ℕ)) : Int), rest)) =
      some (n, rest)
    rw [List.append_nil, if_neg (by simp [digitsList_ne_nil]), digitsToNat_digitsList]
    simp only [Nat.zero_mul, Nat.zero_add]
    have hval : ((n.toNat : Nat) : Int) = n := by omega
    rw [hval]

lemma skipWs_not (c : Char) (X : List Char) (h : isWs c = false) : skipWs (c :: X) = c :: X := by
  rw [skipWs, if_neg (by simp [h])]

lemma expectTail_self (p : List Char) : ∀ r, expectTail p (p ++ r) = some r := by
  induction p with
  | nil => intro r; rfl
  | cons c ps ih => intro r; rw [List.cons_append, expectTail, if_pos rfl, ih]

lemma isWs_eq_false (c : Char) (h1 : c ≠ ' ') (h2 : c ≠ '\n') (h3 : c ≠ '\t')
    (h4 : c ≠ '\r') : isWs c = false := by
  simp [isWs, h1, h2, h3, h4]

lemma intToChars_head (n : Int) :
    ∃ c t, intToChars n = c :: t ∧ 45 ≤ c.toNat ∧ c.toNat ≤ 57 := by
  unfold intToChars
  by_cases h : n < 0
  · rw [if_pos h]
    exact ⟨'-', natToChars n.natAbs, rfl, by decide, by decide⟩
  · rw [if_neg h]
    obtain ⟨c, t, heq, hc1, hc2⟩ := natToChars_head n.toNat
    exact ⟨c, t, heq, by omega, hc2⟩

lemma char_facts_of_range (c : Char) (h1 : 45 ≤ c.toNat) (h2 : c.toNat ≤ 57) :
    isWs c = false ∧ c ≠ 'n' ∧ c ≠ 't' ∧ c ≠ 'f' ∧ c ≠ '"' ∧ c ≠ '[' ∧ c ≠ '\x7b' ∧
      c ≠ ']' ∧ c ≠ '\x7d' := by
  refine ⟨isWs_eq_false c ?_ ?_ ?_ ?_, ?_, ?_, ?_, ?_, ?_, ?_, ?_, ?_⟩ <;>
    (intro hc; rw [hc] at h1 h2) <;>
    first
      | exact absurd h1 (by decide)
      | exact absurd h2 (by decide)

lemma renderJson_length_pos (j : Json) : 1 ≤ (renderJson j).length := by
  cases j with
  | null => decide
  | bool b => cases b <;> decide
  | num n =>
    obtain ⟨c, t, heq, _, _⟩ := intToChars_head n
    show 1 ≤ (intToChars n).length
    rw [heq]; simp
  | str s => show 1 ≤ ('"' :: (escapeList s.data ++ ['"'])).length; simp
  | arr es => show 1 ≤ ('[' :: (renderElems es ++ [']'])).length; simp
  | obj fs => show 1 ≤ ('\x7b' :: (renderFields fs ++ ['\x7d'])).length; simp

lemma renderJson_head (j : Json) :
    ∃ c t, renderJson j = c :: t ∧ isWs c = false ∧ c ≠ ']' ∧ c ≠ '\x7d' := by
  cases j with
  | null => refine ⟨'n', _, rfl, ?_, ?_, ?_⟩ <;> decide
  | bool b =>
    cases b
    · refine ⟨'f', _, rfl, ?_, ?_, ?_⟩ <;> decide
    · refine ⟨'t', _, rfl, ?_, ?_, ?_⟩ <;> decide
  | num n =>
    obtain ⟨c, t, heq, h1, h2⟩ := intToChars_head n
    obtain ⟨hw, _, _, _, _, _, _, hbr, hbr2⟩ := char_facts_of_range c h1 h2
    exact ⟨c, t, heq, hw, hbr, hbr2⟩
  | str s => refine ⟨'"', _, rfl, ?_, ?_, ?_⟩ <;> decide
  | arr es => refine ⟨'[', _, rfl, ?_, ?_, ?_⟩ <;> decide
  | obj fs => refine ⟨'\x7b', _, rfl, ?_, ?_, ?_⟩ <;> decide

lemma renderElems_cons_decomp (e : Json) (es : List Json) :
    ∃ tail, renderElems (e :: es) = renderJson e ++ tail := by
  cases es with
  | nil => exact ⟨[], by rw [renderElems, List.append_nil]⟩
  | cons e2 r => exact ⟨',' :: renderElems (e2 :: r), rfl⟩

lemma parseVal_succ (f : Nat) (input : List Char) :
    parseVal (f + 1) input = parseValCore f (skipWs input) := by
  rw [parseVal]

lemma parseValCore_cons (f : Nat) (c : Char) (X : List Char) :
    parseValCore f (c :: X) =
      (if c = 'n' then (expectTail ['u', 'l', 'l'] X).map (fun r => (Json.null, r))
       else if c = 't' then (expectTail ['r', 'u', 'e'] X).map (fun r => (Json.bool true, r))
       else if c = 'f' then (expectTail ['a', 'l', 's', 'e'] X).map (fun r => (Json.bool false, r))
       else if c = '"' then (parseStringBody X).map (fun p => (Json.str (String.mk p.1), p.2))
       else if c = '[' then parseArrTail f X
       else if c = '\x7b' then parseObjTail f X
       else (parseNumber (c :: X)).map (fun p => (Json.num p.1, p.2))) := by
  rw [parseValCore.eq_def]

lemma arrTailCore_cons (fuel : Nat) (c : Char) (r2 : List Char) :
    arrTailCore fuel (c :: r2) =
      (if c = ']' then some (Json.arr [], r2)
       else (parseElems fuel (c :: r2)).map (fun p => (Json.arr p.1, p.2))) := by
  rw [arrTailCore.eq_def]

lemma objTailCore_cons (fuel : Nat) (c : Char) (r2 : List Char) :
    objTailCore fuel (c :: r2) =
      (if c = '\x7d' then some (Json.obj [], r2)
       else (parseFields fuel (c :: r2)).map (fun p => (Json.obj p.1, p.2))) := by
  rw [objTailCore.eq_def]

lemma elemsContCore_cons (fuel : Nat) (v : Json) (c : Char) (r2 : List Char) :
    elemsContCore fuel v (c :: r2) =
      (if c = ',' then (parseElems fuel r2).map (fun p => (v :: p.1, p.2))
       else if c = ']' then some ([v], r2)
       else none) := by
  rw [elemsContCore.eq_def]

lemma fieldsStart_cons (fuel : Nat) (c : Char) (krest : List Char) :
    fieldsStart fuel (c :: krest) =
      (if c = '"' then fieldsKey fuel krest else none) := by
  rw [fieldsStart.eq_def]

lemma colonCore_cons (fuel : Nat) (kcs : List Char) (c2 : Char) (rest2 : List Char) :
    colonCore fuel kcs (c2 :: rest2) =
      (if c2 = ':' then fieldsVal fuel kcs rest2 else none) := by
  rw [colonCore.eq_def]

lemma afterCore_cons (fuel : Nat) (kcs : List Char) (v : Json) (c3 : Char) (r2 : List Char) :
    afterCore fuel kcs v (c3 :: r2) =
      (if c3 = ',' then (parseFields fuel r2).map (fun p => ((String.mk kcs, v) :: p.1, p.2))
       else if c3 = '\x7d' then some ([(String.mk kcs, v)], r2)
       else none) := by
  rw [afterCore.eq_def]

lemma renderElems_single (e : Json) : renderElems [e] = renderJson e := by
  rw [renderElems]

lemma renderElems_cons2 (e1 e2 : Json) (es : List Json) :
    renderElems (e1 :: e2 :: es) = renderJson e1 ++ ',' :: renderElems (e2 :: es) := by
  rw [renderElems]

lemma renderFields_single (k : String) (v : Json) :
    renderFields [(k, v)] = renderString k ++ ':' :: renderJson v := by
  rw [renderFields]

lemma renderFields_cons2 (k : String) (v : Json) (f2 : String × Json)
    (fs : List (String × Json)) :
    renderFields ((k, v) :: f2 :: fs) =
      renderString k ++ ':' :: renderJson v ++ ',' :: renderFields (f2 :: fs) := by
  rw [renderFields]

lemma len_renderJson_arr (es : List Json) :
    (renderJson (Json.arr es)).length = (renderElems es).length + 2 := by
  show ('[' :: (renderElems es ++ [']'])).length = _
  simp

lemma len_renderJson_obj (fs : List (String × Json)) :
    (renderJson (Json.obj fs)).length = (renderFields fs).length + 2 := by
  show ('\x7b' :: (renderFields fs ++ ['\x7d'])).length = _
  simp

lemma len_renderElems_cons2 (e1 e2 : Json) (es : List Json) :
    (renderElems (e1 :: e2 :: es)).length =
      (renderJson e1).length + 1 + (renderElems (e2 :: es)).length := by
  rw [renderElems_cons2]
  simp [List.length_append]
  omega

lemma len_renderFields_single (k : String) (v : Json) :
    (renderFields [(k, v)]).length =
      (renderString k).length + 1 + (renderJson v).length := by
  rw [renderFields_single]
  simp [List.length_append]
  omega

lemma len_renderFields_cons2 (k : String) (v : Json) (f2 : String × Json)
    (fs : List (String × Json)) :
    (renderFields ((k, v) :: f2 :: fs)).length =
      (renderString k).length + 1 + (renderJson v).length + 1 +
        (renderFields (f2 :: fs)).length := by
  rw [renderFields_cons2]
  simp [List.length_append]
  omega

lemma len_renderString_ge (k : String) : 2 ≤ (renderString k).length := by
  show 2 ≤ ('"' :: (escapeList k.data ++ ['"'])).length
  simp

lemma parse_render_aux : ∀ fuel : Nat,
    (∀ j rest, (renderJson j).length ≤ fuel → digitStart rest = false →
      parseVal fuel (renderJson j ++ rest) = some (j, rest)) ∧
    (∀ es rest, es ≠ [] → (renderElems es).length + 1 ≤ fuel →
      parseElems fuel (renderElems es ++ ']' :: rest) = some (es, rest)) ∧
    (∀ fs rest, fs ≠ [] → (renderFields fs).length + 1 ≤ fuel →
      parseFields fuel (renderFields fs ++ '\x7d' :: rest) = some (fs, rest)) := by
  intro fuel
  induction fuel using Nat.strong_induction_on with
  | _ fuel ih =>
  refine ⟨?_, ?_, ?_⟩
  · intro j rest hlen hds
    cases fuel with
    | zero => exact absurd hlen (by have := renderJson_length_pos j; omega)
    | succ f =>
      rw [parseVal_succ]
      cases j with
      | null =>
        rw [show renderJson Json.null ++ rest = 'n' :: ('u' :: 'l' :: 'l' :: rest) from rfl,
            skipWs_not _ _ (by decide), parseValCore_cons, if_pos rfl,
            show ('u' :: 'l' :: 'l' :: rest) = ['u', 'l', 'l'] ++ rest from rfl, expectTail_self]
        rfl
      | bool b =>
        cases b with
        | true =>
          rw [show renderJson (Json.bool true) ++ rest = 't' :: ('r' :: 'u' :: 'e' :: rest)
                from rfl,
              skipWs_not _ _ (by decide), parseValCore_cons, if_neg (by decide), if_pos rfl,
              show ('r' :: 'u' :: 'e' :: rest) = ['r', 'u', 'e'] ++ rest from rfl,
              expectTail_self]
          rfl
        | false =>
          rw [show renderJson (Json.bool false) ++ rest =
                'f' :: ('a' :: 'l' :: 's' :: 'e' :: rest) from rfl,
              skipWs_not _ _ (by decide), parseValCore_cons, if_neg (by decide),
              if_neg (by decide), if_pos rfl,
              show ('a' :: 'l' :: 's' :: 'e' :: rest) = ['a', 'l', 's', 'e'] ++ rest from rfl,
              expectTail_self]
          rfl
      | num n =>
        obtain ⟨c, t, heq, h45, h57⟩ := intToChars_head n
        obtain ⟨hw, hn, ht, hf, hq, hlb, hob, _, _⟩ := char_facts_of_range c h45 h57
        have e : renderJson (Json.num n) ++ rest = c :: (t ++ rest) := by
          show intToChars n ++ rest = _
          rw [heq]; rfl
        rw [e, skipWs_not _ _ hw, parseValCore_cons, if_neg hn, if_neg ht, if_neg hf,
            if_neg hq, if_neg hlb, if_neg hob,
            show c :: (t ++ rest) = (c :: t) ++ rest from rfl, ← heq,
            parseNumber_intToChars n rest hds]
        rfl
      | str s =>
        have e : renderJson (Json.str s) ++ rest =
            '"' :: (escapeList s.data ++ ('"' :: rest)) := by
          show ('"' :: (escapeList s.data ++ ['"'])) ++ rest = _
          simp
        rw [e, skipWs_not _ _ (by decide), parseValCore_cons, if_neg (by decide),
            if_neg (by decide), if_neg (by decide), if_pos rfl,
            parseStringBody_escape s.data rest]
        rfl
      | arr es =>
        cases es with
        | nil =>
          rw [show renderJson (Json.arr []) ++ rest = '[' :: (']' :: rest) from rfl,
              skipWs_not _ _ (by decide), parseValCore_cons, if_neg (by decide),
              if_neg (by decide), if_neg (by decide), if_neg (by decide), if_pos rfl,
              parseArrTail, skipWs_not _ _ (by decide), arrTailCore_cons, if_pos rfl]
        | cons e1 es' =>
          have hlen2 : (renderElems (e1 :: es')).length + 1 ≤ f := by
            have := len_renderJson_arr (e1 :: es')
            omega
          have hQ := (ih f (by omega)).2.1 (e1 :: es') rest (by simp) hlen2
          obtain ⟨tail, hdec⟩ := renderElems_cons_decomp e1 es'
          obtain ⟨c, t, hhead, hw, hbr, _⟩ := renderJson_head e1
          have e : renderJson (Json.arr (e1 :: es')) ++ rest =
              '[' :: (renderElems (e1 :: es') ++ ']' :: rest) := by
            show ('[' :: (renderElems (e1 :: es') ++ [']'])) ++ rest = _
            simp
          have e2 : renderElems (e1 :: es') ++ ']' :: rest =
              c :: ((t ++ tail) ++ ']' :: rest) := by
            rw [hdec, hhead]; simp
          rw [e, skipWs_not _ _ (by decide), parseValCore_cons, if_neg (by decide),
              if_neg (by decide), if_neg (by decide), if_neg (by decide), if_pos rfl,
              parseArrTail, e2, skipWs_not _ _ hw, arrTailCore_cons, if_neg hbr, ← e2, hQ]
          rfl
      | obj fs =>
        cases fs with
        | nil =>
          rw [show renderJson (Json.obj []) ++ rest = '\x7b' :: ('\x7d' :: rest) from rfl,
              skipWs_not _ _ (by decide), parseValCore_cons, if_neg (by decide),
              if_neg (by decide), if_neg (by decide), if_neg (by decide), if_neg (by decide),
              if_pos rfl,
              parseObjTail, skipWs_not _ _ (by decide), objTailCore_cons, if_pos rfl]
        | cons f1 fs' =>
          obtain ⟨k, v⟩ := f1
          have hlen2 : (renderFields ((k, v) :: fs')).length + 1 ≤ f := by
            have := len_renderJson_obj ((k, v) :: fs')
            omega
          have hR := (ih f (by omega)).2.2 ((k, v) :: fs') rest (by simp) hlen2
          have e : renderJson (Json.obj ((k, v) :: fs')) ++ rest =
              '\x7b' :: (renderFields ((k, v) :: fs') ++ '\x7d' :: rest) := by
            show ('\x7b' :: (renderFields ((k, v) :: fs') ++ ['\x7d'])) ++ rest = _
            simp
          have e2 : ∃ X, renderFields ((k, v) :: fs') ++ '\x7d' :: rest = '"' :: X := by
            cases fs' with
            | nil =>
              refine ⟨escapeList k.data ++ '"' :: ':' :: (renderJson v ++ '\x7d' :: rest), ?_⟩
              rw [renderFields_single]
              show (('"' :: (escapeList k.data ++ ['"'])) ++ _) ++ _ = _
              simp
            | cons f2 fs'' =>
              refine ⟨escapeList k.data ++ '"' :: ':' :: (renderJson v ++ ',' ::
                (renderFields (f2 :: fs'') ++ '\x7d' :: rest)), ?_⟩
              rw [renderFields_cons2]
              show ((('"' :: (escapeList k.data ++ ['"'])) ++ _) ++ _) ++ _ = _
              simp
          obtain ⟨X, e2⟩ := e2
          rw [e, skipWs_not _ _ (by decide), parseValCore_cons, if_neg (by decide),
              if_neg (by decide), if_neg (by decide), if_neg (by decide), if_neg (by decide),
              if_pos rfl,
              parseObjTail, e2, skipWs_not _ _ (by decide), objTailCore_cons,
              if_neg (by decide), ← e2, hR]
          rfl
  · intro es rest hne hlen
    cases fuel with
    | zero => omega
    | succ f =>
      cases es with
      | nil => exact absurd rfl hne
      | cons e1 es' =>
        cases es' with
        | nil =>
          have hlenP : (renderJson e1).length ≤ f := by
            have : (renderElems [e1]).length = (renderJson e1).length := by
              rw [renderElems_single]
            omega
          have hP := (ih f (by omega)).1 e1 (']' :: rest) hlenP rfl
          rw [parseElems,
              show renderElems [e1] ++ ']' :: rest = renderJson e1 ++ ']' :: rest from by
                rw [renderElems_single],
              hP]
          show elemsCont f e1 (']' :: rest) = some ([e1], rest)
          rw [elemsCont, skipWs_not _ _ (by decide), elemsContCore_cons, if_neg (by decide),
              if_pos rfl]
        | cons e2 es'' =>
          have hlens := len_renderElems_cons2 e1 e2 es''
          have hpos := renderJson_length_pos e1
          have hlenP : (renderJson e1).length ≤ f := by omega
          have hlenQ : (renderElems (e2 :: es'')).length + 1 ≤ f := by omega
          have hP := (ih f (by omega)).1 e1
            (',' :: (renderElems (e2 :: es'') ++ ']' :: rest)) hlenP rfl
          have hQ := (ih f (by omega)).2.1 (e2 :: es'') rest (by simp) hlenQ
          rw [parseElems,
              show renderElems (e1 :: e2 :: es'') ++ ']' :: rest =
                  renderJson e1 ++ (',' :: (renderElems (e2 :: es'') ++ ']' :: rest)) from by
                rw [renderElems_cons2]; simp,
              hP]
          show elemsCont f e1 (',' :: (renderElems (e2 :: es'') ++ ']' :: rest)) = _
          rw [elemsCont, skipWs_not _ _ (by decide), elemsContCore_cons, if_pos rfl, hQ]
          rfl
  · intro fs rest hne hlen
    cases fuel with
    | zero => omega
    | succ f =>
      cases fs with
      | nil => exact absurd rfl hne
      | cons f1 fs' =>
        obtain ⟨k, v⟩ := f1
        cases fs' with
        | nil =>
          have hlens := len_renderFields_single k v
          have hstr := len_renderString_ge k
          have hlenP : (renderJson v).length ≤ f := by omega
          have hP := (ih f (by omega)).1 v ('\x7d' :: rest) hlenP rfl
          rw [parseFields,
              show renderFields [(k, v)] ++ '\x7d' :: rest =
                  '"' :: (escapeList k.data ++ ('"' ::
                    (':' :: (renderJson v ++ '\x7d' :: rest)))) from by
                rw [renderFields_single]
                show (('"' :: (escapeList k.data ++ ['"'])) ++ _) ++ _ = _
                simp,
              skipWs_not _ _ (by decide), fieldsStart_cons, if_pos rfl, fieldsKey,
              parseStringBody_escape k.data (':' :: (renderJson v ++ '\x7d' :: rest))]
          show fieldsColon f k.data (':' :: (renderJson v ++ '\x7d' :: rest)) =
            some ([(k, v)], rest)
          rw [fieldsColon, skipWs_not _ _ (by decide), colonCore_cons, if_pos rfl, fieldsVal,
              hP]
          show fieldsAfter f k.data v ('\x7d' :: rest) = some ([(k, v)], rest)
          rw [fieldsAfter, skipWs_not _ _ (by decide), afterCore_cons, if_neg (by decide),
              if_pos rfl]
        | cons f2 fs'' =>
          have hlens := len_renderFields_cons2 k v f2 fs''
          have hstr := len_renderString_ge k
          have hvpos := renderJson_length_pos v
          have hlenP : (renderJson v).length ≤ f := by omega
          have hlenR : (renderFields (f2 :: fs'')).length + 1 ≤ f := by omega
          have hP := (ih f (by omega)).1 v
            (',' :: (renderFields (f2 :: fs'') ++ '\x7d' :: rest)) hlenP rfl
          have hR := (ih f (by omega)).2.2 (f2 :: fs'') rest (by simp) hlenR
          rw [parseFields,
              show renderFields ((k, v) :: f2 :: fs'') ++ '\x7d' :: rest =
                  '"' :: (escapeList k.data ++ ('"' ::
                    (':' :: (renderJson v ++ (',' ::
                      (renderFields (f2 :: fs'') ++ '\x7d' :: rest)))))) from by
                rw [renderFields_cons2]
                show ((('"' :: (escapeList k.data ++ ['"'])) ++ _) ++ _) ++ _ = _
                simp,
              skipWs_not _ _ (by decide), fieldsStart_cons, if_pos rfl, fieldsKey,
              parseStringBody_escape k.data
                (':' :: (renderJson v ++ (',' :: (renderFields (f2 :: fs'') ++
                  '\x7d' :: rest))))]
          show fieldsColon f k.data
            (':' :: (renderJson v ++ (',' :: (renderFields (f2 :: fs'') ++ '\x7d' :: rest)))) =
            some ((k, v) :: f2 :: fs'', rest)
          rw [fieldsColon, skipWs_not _ _ (by decide), colonCore_cons, if_pos rfl, fieldsVal,
              hP]
          show fieldsAfter f k.data v
            (',' :: (renderFields (f2 :: fs'') ++ '\x7d' :: rest)) = _
          rw [fieldsAfter, skipWs_not _ _ (by decide), afterCore_cons, if_pos rfl, hR]
          rfl

/-- Parsing a rendered value with fuel equal to its length restores the
value exactly. -/
lemma parseVal_renderJson (j : Json) :
    parseVal (renderJson j).length (renderJson j) = some (j, []) := by
  have h := (parse_render_aux (renderJson j).length).1 j [] le_rfl rfl
  simpa using h

/-- Encoding of one `ReviewComment` as the JSON object `JSON.stringify`
produces for it: fields in declaration order, with `endLine` omitted when
undefined (`JSON.stringify` drops `undefined` properties). -/
def encodeComment (c : ReviewComment) : Json :=
  Json.obj ([("id", Json.str c.id), ("file", Json.str c.file),
    ("line", Json.num (c.line : Int))] ++
    (match c.endLine with
     | some e => [("endLine", Json.num (e : Int))]
     | none => []) ++
    [("comment", Json.str c.comment), ("type", Json.str c.type.toStr),
     ("priority", Json.str c.priority.toStr), ("timestamp", Json.str c.timestamp)])

/-- Looks up a field in a JSON object field list (first match, as JS
property access on parsed JSON). -/
def getField (fs : List (String × Json)) (k : String) : Option Json :=
  (fs.find? (fun p => p.1 == k)).map (fun p => p.2)

/-- Reads a JSON string field. -/
def asStr : Option Json → Option String
  | some (Json.str s) => some s
  | _ => none

/-- Reads a JSON number field as a line number. -/
def asNat : Option Json → Option Nat
  | some (Json.num n) => some n.toNat
  | _ => none

/-- The `CommentType` with the given enum string value. -/
def typeOfStr (s : String) : Option CommentType :=
  if s = "issue" then some .issue
  else if s = "suggestion" then some .suggestion
  else if s = "question" then some .question
  else if s = "praise" then some .praise
  else none

/-- The `Priority` with the given enum string value. -/
def priorityOfStr (s : String) : Option Priority :=
  if s = "low" then some .low
  else if s = "medium" then some .medium
  else if s = "high" then some .high
  else if s = "critical" then some .critical
  else none

/-- The typed reading of one parsed comment object (`loadFromFile` assigns
the parsed objects directly; this is the structural-typing check made
explicit). -/
def decodeComment : Json → Option ReviewComment
  | Json.obj fs =>
    match asStr (getField fs "id"), asStr (getField fs "file"),
        asNat (getField fs "line"), asStr (getField fs "comment"),
        asStr (getField fs "type"), asStr (getField fs "priority"),
        asStr (getField fs "timestamp") with
    | some i, some f, some l, some cm, some ty, some pr, some ts =>
      match typeOfStr ty, priorityOfStr pr with
      | some ty2, some pr2 =>
        match getField fs "endLine" with
        | none => some ⟨i, f, l, none, cm, ty2, pr2, ts⟩
        | some (Json.num e) => some ⟨i, f, l, some e.toNat, cm, ty2, pr2, ts⟩
        | some _ => none
      | _, _ => none
    | _, _, _, _, _, _, _ => none
  | _ => none

/-- Element-wise decoding of the `comments` array. -/
def decodeComments : List Json → Option (List ReviewComment)
  | [] => some []
  | j :: rest =>
    match decodeComment j, decodeComments rest with
    | some c, some cs => some (c :: cs)
    | _, _ => none

lemma decodeComment_encodeComment (c : ReviewComment) :
    decodeComment (encodeComment c) = some c := by
  obtain ⟨i, f, l, el, cm, ty, pr, ts⟩ := c
  cases el <;> cases ty <;> cases pr <;> rfl

lemma decodeComments_encode (cs : List ReviewComment) :
    decodeComments (cs.map encodeComment) = some cs := by
  induction cs with
  | nil => rfl
  | cons c cs' ih =>
    rw [List.map_cons, decodeComments, decodeComment_encodeComment c, ih]

/-- Modelled from the spec: the file-system collaborator offers "UTF-8 text
read/write at validated, workspace-relative paths"; its state is the map
from paths to file contents, as an association list with newest write
first. -/
def FsState := List (String × String)

/-- Writes (or overwrites) one file. -/
def writeFs (fs : FsState) (p content : String) : FsState := (p, content) :: fs

/-- Reads one file if present. -/
def readFs (fs : FsState) (p : String) : Option String :=
  (List.find? (fun e => e.1 == p) fs).map (fun e => e.2)

/-- Modelled from the spec: `PathValidator.safeJoin` wraps the `path.join`
built-in; the persisted artifact layout is
`<reviewsDir>/review-<sanitizedBranch>.json`. -/
def safeJoin (root seg : String) : String := root ++ "/" ++ seg

/-- The JSON artifact object `{branch, comments, lastUpdated}` that
`saveToFile` serializes. -/
def artifactJson (branch : String) (comments : List ReviewComment) (now : String) : Json :=
  Json.obj [("branch", Json.str branch),
    ("comments", Json.arr (comments.map encodeComment)),
    ("lastUpdated", Json.str now)]

/-- `saveToFile(branch)` of `reviewRepository.ts`: validates the branch,
derives `review-<branch>.json`, and writes the serialized artifact; the
`new Date().toISOString()` built-in is the `now` parameter. -/
def saveToFile (fsState : FsState) (reviewsDirectory : String)
    (comments : List ReviewComment) (branch now : String) : Except String FsState :=
  match validateBranchName branch with
  | .error e => .error ("Failed to save comments to file: " ++ e)
  | .ok validatedBranch =>
    .ok (writeFs fsState (safeJoin reviewsDirectory ("review-" ++ validatedBranch ++ ".json"))
      (String.mk (renderJson (artifactJson validatedBranch comments now))))

/-- `loadFromFile(branch)` of `reviewRepository.ts`: validates the branch,
reads `review-<branch>.json` if it exists, parses it, and replaces the
comment collection with `data.comments || []`; a missing file leaves the
collection unchanged. `JSON.parse` is modelled by `parseVal` with fuel the
content length, and the untyped assignment of the parsed objects by the
explicit `decodeComments`. -/
def loadFromFile (fsState : FsState) (reviewsDirectory : String)
    (comments : List ReviewComment) (branch : String) : Except String (List ReviewComment) :=
  match validateBranchName branch with
  | .error e => .error ("Failed to load comments from file: " ++ e)
  | .ok validatedBranch =>
    match readFs fsState (safeJoin reviewsDirectory
        ("review-" ++ validatedBranch ++ ".json")) with
    | none => .ok comments
    | some content =>
      match parseVal content.length content.data with
      | none => .error "Failed to load comments from file: parse error"
      | some (data, _) =>
        match data with
        | Json.obj fields =>
          match getField fields "comments" with
          | some (Json.arr js) =>
            match decodeComments js with
            | some cs => .ok cs
            | none => .error "Failed to load comments from file: malformed comments"
          | some Json.null => .ok []
          | some (Json.bool false) => .ok []
          | none => .ok []
          | some _ => .error "Failed to load comments from file: malformed comments"
        | _ => .ok []

lemma readFs_writeFs (fs : FsState) (p content : String) :
    readFs (writeFs fs p content) p = some content := by
  show (List.find? (fun e => e.1 == p) ((p, content) :: fs)).map (fun e => e.2) = some content
  rw [List.find?_cons_of_pos]
  · rfl
  · exact beq_self_eq_true p

lemma saveLoad_roundTrip_aux (fsState : FsState) (reviewsDirectory : String)
    (comments : List ReviewComment) (branch now : String)
    (h : validateBranchName branch = .ok branch) :
    ∃ fs2, saveToFile fsState reviewsDirectory comments branch now = .ok fs2 ∧
      loadFromFile fs2 reviewsDirectory [] branch = .ok comments := by
  refine ⟨writeFs fsState (safeJoin reviewsDirectory ("review-" ++ branch ++ ".json"))
    (String.mk (renderJson (artifactJson branch comments now))), ?_, ?_⟩
  · unfold saveToFile
    rw [h]
  · unfold loadFromFile
    rw [h]
    show (match readFs (writeFs fsState (safeJoin reviewsDirectory
        ("review-" ++ branch ++ ".json"))
        (String.mk (renderJson (artifactJson branch comments now))))
        (safeJoin reviewsDirectory ("review-" ++ branch ++ ".json")) with
      | none => Except.ok []
      | some content =>
        match parseVal content.length content.data with
        | none => Except.error "Failed to load comments from file: parse error"
        | some (data, _) =>
          match data with
          | Json.obj fields =>
            match getField fields "comments" with
            | some (Json.arr js) =>
              match decodeComments js with
              | some cs => Except.ok cs
              | none => Except.error "Failed to load comments from file: malformed comments"
            | some Json.null => Except.ok []
            | some (Json.bool false) => Except.ok []
            | none => Except.ok []
            | some _ => Except.error "Failed to load comments from file: malformed comments"
          | _ => Except.ok []) = Except.ok comments
    rw [readFs_writeFs]
    show (match parseVal (String.mk (renderJson (artifactJson branch comments now))).length
        (String.mk (renderJson (artifactJson branch comments now))).data with
      | none => Except.error "Failed to load comments from file: parse error"
      | some (data, _) =>
        match data with
        | Json.obj fields =>
          match getField fields "comments" with
          | some (Json.arr js) =>
            match decodeComments js with
            | some cs => Except.ok cs
            | none => Except.error "Failed to load comments from file: malformed comments"
          | some Json.null => Except.ok []
          | some (Json.bool false) => Except.ok []
          | none => Except.ok []
          | some _ => Except.error "Failed to load comments from file: malformed comments"
        | _ => Except.ok []) = Except.ok comments
    have hlen : (String.mk (renderJson (artifactJson branch comments now))).length
        = (renderJson (artifactJson branch comments now)).length := rfl
    have hdata : (String.mk (renderJson (artifactJson branch comments now))).data
        = renderJson (artifactJson branch comments now) := rfl
    rw [hlen, hdata, parseVal_renderJson]
    show (match getField [("branch", Json.str branch),
        ("comments", Json.arr (comments.map encodeComment)),
        ("lastUpdated", Json.str now)] "comments" with
      | some (Json.arr js) =>
        match decodeComments js with
        | some cs => Except.ok cs
        | none => Except.error "Failed to load comments from file: malformed comments"
      | some Json.null => Except.ok []
      | some (Json.bool false) => Except.ok []
      | none => Except.ok []
      | some _ => Except.error "Failed to load comments from file: malformed comments")
      = Except.ok comments
    have hg : getField [("branch", Json.str branch),
        ("comments", Json.arr (comments.map encodeComment)),
        ("lastUpdated", Json.str now)] "comments"
        = some (Json.arr (comments.map encodeComment)) := rfl
    rw [hg]
    show (match decodeComments (comments.map encodeComment) with
      | some cs => Except.ok cs
      | none => Except.error "Failed to load comments from file: malformed comments")
      = Except.ok comments
    rw [decodeComments_encode]

set_option maxRecDepth 10000

/-- C10: the JSON artifact round-trips losslessly — for any comment
collection and a branch accepted by `validateBranchName`, `saveToFile`
followed by `loadFromFile` of the same branch restores exactly the comment
collection that was written (the `lastUpdated` value `now` is ignored by
the load). Modelled from the spec: `JSON.stringify`/`JSON.parse`,
`path.join` and the `fs` module are language built-ins, modelled by
`renderJson`/`parseVal`, `safeJoin` and `FsState` per the spec's artifact
schema `{branch, comments: ReviewComment[], lastUpdated}`. -/
theorem saveLoad_roundTrip (fsState : FsState) (reviewsDirectory : String)
    (comments : List ReviewComment) (branch now : String)
    (h : validateBranchName branch = .ok branch) :
    ∃ fs2, saveToFile fsState reviewsDirectory comments branch now = .ok fs2 ∧
      loadFromFile fs2 reviewsDirectory [] branch = .ok comments :=
  saveLoad_roundTrip_aux fsState reviewsDirectory comments branch now h

/-- C10 witness: a concrete two-comment collection (one with `endLine`,
one without) written for branch `main` is read back exactly. -/
theorem saveLoad_roundTrip_witness :
    validateBranchName "main" = .ok "main" ∧
    ∃ fs2, saveToFile [] "reviews"
        [⟨"c1", "src/a.ts", 3, none, "first", .issue, .high, "t1"⟩,
         ⟨"c2", "src/b.ts", 5, some 7, "second", .praise, .low, "t2"⟩]
        "main" "2025-01-01T00:00:00Z" = .ok fs2 ∧
      loadFromFile fs2 "reviews" []
        "main" = .ok
        [⟨"c1", "src/a.ts", 3, none, "first", .issue, .high, "t1"⟩,
         ⟨"c2", "src/b.ts", 5, some 7, "second", .praise, .low, "t2"⟩] :=
  ⟨rfl, saveLoad_roundTrip [] "reviews"
    [⟨"c1", "src/a.ts", 3, none, "first", .issue, .high, "t1"⟩,
     ⟨"c2", "src/b.ts", 5, some 7, "second", .praise, .low, "t2"⟩]
    "main" "2025-01-01T00:00:00Z" rfl⟩

end DiffPilot
